import Mathlib

/-!
Verification of the TeamFlow realtime websocket relay
(`mini-services/websocket-service/index.ts`).

The relay keeps three pieces of in-memory state:

* `clients`            : Map clientId → Client   (the connection registry)
* `workspaceClients`   : Map workspaceId → Set clientId
* `boardClients`       : Map boardId → Set clientId

and reacts to websocket events (`connection`, `message`, `close`, `error`).
We embed this shallowly: JS `Map`s become association lists (JS maps preserve
insertion order, as do lists), JS `Set`s become duplicate-free lists, object
mutation becomes functional update of the registry, and every `ws.send`
becomes an element `(recipientClientId, message)` of an output list returned
by the handler.  The socket handle is modelled by its `readyState` (`true`
iff `WebSocket.OPEN`), the only part of it the relay reads.
-/

namespace TeamFlow

/-- An opaque message payload (the relay never inspects payloads beyond the
routed fields, so raw JSON text suffices). -/
abbrev Payload := String

/-- The `Client` interface of the service: connection id, transport handle
(modelled by its readyState: `true` iff `WebSocket.OPEN`), and the three
optional fields `userId`, `workspaceId`, `boardId`. -/
structure Client where
  id : String
  readyState : Bool
  userId : Option String
  workspaceId : Option String
  boardId : Option String
  deriving Repr, DecidableEq

/-- Inbound envelopes after JSON decoding, by their `type` discriminant.
`unknown` stands for any `type` value outside the fixed enumeration
(the router's `default` branch). -/
inductive InMsg where
  | join_workspace (workspaceId : String)
  | join_board (boardId : String)
  | card_moved (payload : Payload)
  | card_created (payload : Payload)
  | user_typing (payload : Payload)
  | cursor_move (payload : Payload)
  | unknown (ty : String) (payload : Payload)
  deriving Repr, DecidableEq

/-- Outbound messages, one constructor per `type` the service serializes.
Fields mirror the JSON the code builds; optional user ids stay `Option`
(a `none` is omitted by `JSON.stringify`, i.e. serialized with no value). -/
inductive OutMsg where
  | connected (clientId : String)
  | user_joined (userId : Option String) (workspaceId : String)
  | workspace_users (count : Nat)
  | user_joined_board (userId : Option String) (boardId : String)
  | board_users (count : Nat)
  | card_moved (payload : Payload) (movedBy : Option String) (timestamp : Nat)
  | card_created (payload : Payload) (createdBy : Option String) (timestamp : Nat)
  | user_typing (userId : Option String) (payload : Payload)
  | cursor_move (userId : Option String) (payload : Payload)
  | user_left (userId : Option String) (workspaceId : String)
  | user_left_board (userId : Option String) (boardId : String)
  deriving Repr, DecidableEq

/-- A room index (`workspaceClients` / `boardClients`): an insertion-ordered
map from room id to the room's member connection ids. -/
abbrev RoomMap := List (String × List String)

/-- The relay's whole mutable state. -/
structure ServerState where
  clients : List Client
  workspaceClients : RoomMap
  boardClients : RoomMap
  deriving Repr, DecidableEq

/-- `Map.get` on a room index. -/
def mapGet (m : RoomMap) (k : String) : Option (List String) :=
  (m.find? (fun p => p.1 = k)).map Prod.snd

/-- `Map.set` on a room index: overwrite in place when the key exists,
append otherwise (JS `Map` insertion-order semantics). -/
def mapSet (m : RoomMap) (k : String) (v : List String) : RoomMap :=
  if (m.find? (fun p => p.1 = k)).isSome then
    m.map (fun p => if p.1 = k then (k, v) else p)
  else
    m ++ [(k, v)]

/-- `Map.delete` on a room index. -/
def mapDelete (m : RoomMap) (k : String) : RoomMap :=
  m.filter (fun p => ¬ p.1 = k)

/-- `Set.add` on a member set: a JS `Set` ignores an `add` of an element it
already holds, otherwise appends it in insertion order. -/
def setAdd (ms : List String) (x : String) : List String :=
  if x ∈ ms then ms else ms ++ [x]

/-- The `// Remove from previous workspace/board` block shared by
`handleJoinWorkspace`, `handleJoinBoard` and `handleDisconnect`: look the
room up, delete the member, and delete the room itself when its member set
became empty. -/
def roomLeave (m : RoomMap) (roomId : String) (cid : String) : RoomMap :=
  match mapGet m roomId with
  | some ms =>
    let ms' := ms.erase cid
    if ms'.length = 0 then mapDelete m roomId else mapSet m roomId ms'
  | none => m

/-- The truthiness-guarded `// Remove from previous workspace/board` block:
the JS guards `if (client.workspaceId)` / `if (client.boardId)` test
truthiness, and both `undefined` and the empty string are falsy, so a
previous room whose id is `""` is NOT left — the stale membership stays. -/
def roomLeaveTruthy (m : RoomMap) (o : Option String) (cid : String) : RoomMap :=
  match o with
  | some prev => if prev = "" then m else roomLeave m prev cid
  | none => m

/-- The `// Add to new workspace/board` block: create the room lazily, then
add the member. -/
def roomJoin (m : RoomMap) (roomId : String) (cid : String) : RoomMap :=
  match mapGet m roomId with
  | some ms => mapSet m roomId (setAdd ms cid)
  | none => mapSet m roomId (setAdd [] cid)

/-- `clients.get(clientId)` on the registry. -/
def findClient (cs : List Client) (cid : String) : Option Client :=
  cs.find? (fun c => c.id = cid)

/-- In JS the handlers mutate the shared `client` object in place; here the
registry entry with the same id is replaced. -/
def replaceClient (cs : List Client) (c' : Client) : List Client :=
  cs.map (fun c => if c.id = c'.id then c' else c)

/-- The common body of `broadcastToWorkspace`/`broadcastToBoard`: for every
member other than `excludeClientId`, send the serialized message iff the
member resolves in the registry and its transport readyState is OPEN. -/
def broadcastToList (clients : List Client) (members : List String)
    (msg : OutMsg) (excludeClientId : Option String) : List (String × OutMsg) :=
  members.filterMap (fun clientId =>
    if some clientId = excludeClientId then none
    else
      match findClient clients clientId with
      | some c => if c.readyState then some (clientId, msg) else none
      | none => none)

/-- `broadcastToWorkspace(workspaceId, message, excludeClientId?)`. -/
def broadcastToWorkspace (s : ServerState) (workspaceId : String)
    (msg : OutMsg) (excludeClientId : Option String) : List (String × OutMsg) :=
  match mapGet s.workspaceClients workspaceId with
  | none => []
  | some wsClients => broadcastToList s.clients wsClients msg excludeClientId

/-- `broadcastToBoard(boardId, message, excludeClientId?)`. -/
def broadcastToBoard (s : ServerState) (boardId : String)
    (msg : OutMsg) (excludeClientId : Option String) : List (String × OutMsg) :=
  match mapGet s.boardClients boardId with
  | none => []
  | some bdClients => broadcastToList s.clients bdClients msg excludeClientId

/-- `handleJoinWorkspace(client, workspaceId)`: leave the previous workspace
room, set `client.workspaceId`, join the new room, notify the other members,
then send the member count to the joiner (an unconditional `ws.send`). -/
def handleJoinWorkspace (s : ServerState) (client : Client)
    (workspaceId : String) : ServerState × List (String × OutMsg) :=
  let wcs := roomLeaveTruthy s.workspaceClients client.workspaceId client.id
  let client' := { client with workspaceId := some workspaceId }
  let s1 : ServerState :=
    { s with clients := replaceClient s.clients client',
             workspaceClients := roomJoin wcs workspaceId client.id }
  let msgs := broadcastToWorkspace s1 workspaceId
    (OutMsg.user_joined client'.userId workspaceId) (some client.id)
  let workspaceUserCount :=
    match mapGet s1.workspaceClients workspaceId with
    | some ms => ms.length
    | none => 0
  (s1, msgs ++ [(client.id, OutMsg.workspace_users workspaceUserCount)])

/-- `handleJoinBoard(client, boardId)`, the board-flavor twin of
`handleJoinWorkspace`. -/
def handleJoinBoard (s : ServerState) (client : Client)
    (boardId : String) : ServerState × List (String × OutMsg) :=
  let bcs := roomLeaveTruthy s.boardClients client.boardId client.id
  let client' := { client with boardId := some boardId }
  let s1 : ServerState :=
    { s with clients := replaceClient s.clients client',
             boardClients := roomJoin bcs boardId client.id }
  let msgs := broadcastToBoard s1 boardId
    (OutMsg.user_joined_board client'.userId boardId) (some client.id)
  let boardUserCount :=
    match mapGet s1.boardClients boardId with
    | some ms => ms.length
    | none => 0
  (s1, msgs ++ [(client.id, OutMsg.board_users boardUserCount)])

/-- `handleCardMoved`: no-op without a joined board, else broadcast to the
whole board room (sender included), stamping `movedBy` and `timestamp`. -/
def handleCardMoved (s : ServerState) (client : Client) (now : Nat)
    (payload : Payload) : ServerState × List (String × OutMsg) :=
  match client.boardId with
  | none => (s, [])
  | some boardId =>
    -- `if (!client.boardId) return`: "" is falsy, so it also returns
    if boardId = "" then (s, [])
    else (s, broadcastToBoard s boardId
      (OutMsg.card_moved payload client.userId now) none)

/-- `handleCardCreated`: like `handleCardMoved` with `createdBy`. -/
def handleCardCreated (s : ServerState) (client : Client) (now : Nat)
    (payload : Payload) : ServerState × List (String × OutMsg) :=
  match client.boardId with
  | none => (s, [])
  | some boardId =>
    -- `if (!client.boardId) return`: "" is falsy, so it also returns
    if boardId = "" then (s, [])
    else (s, broadcastToBoard s boardId
      (OutMsg.card_created payload client.userId now) none)

/-- `handleUserTyping`: broadcast to the board room excluding the sender. -/
def handleUserTyping (s : ServerState) (client : Client)
    (payload : Payload) : ServerState × List (String × OutMsg) :=
  match client.boardId with
  | none => (s, [])
  | some boardId =>
    -- `if (!client.boardId) return`: "" is falsy, so it also returns
    if boardId = "" then (s, [])
    else (s, broadcastToBoard s boardId
      (OutMsg.user_typing client.userId payload) (some client.id))

/-- `handleCursorMove`: broadcast to the board room excluding the sender. -/
def handleCursorMove (s : ServerState) (client : Client)
    (payload : Payload) : ServerState × List (String × OutMsg) :=
  match client.boardId with
  | none => (s, [])
  | some boardId =>
    -- `if (!client.boardId) return`: "" is falsy, so it also returns
    if boardId = "" then (s, [])
    else (s, broadcastToBoard s boardId
      (OutMsg.cursor_move client.userId payload) (some client.id))

/-- `handleDisconnect(client)`: leave the workspace room (notifying the
remaining members unless the room became empty, in which case it is
deleted), then likewise the board room, then delete the registry entry. -/
def handleDisconnect (s : ServerState) (client : Client) :
    ServerState × List (String × OutMsg) :=
  let step1 : ServerState × List (String × OutMsg) :=
    match client.workspaceId with
    | some wid =>
      -- `if (client.workspaceId)`: "" is falsy, so the whole block is skipped
      if wid = "" then (s, [])
      else
      match mapGet s.workspaceClients wid with
      | some wsClients =>
        let wsClients' := wsClients.erase client.id
        if wsClients'.length = 0 then
          ({ s with workspaceClients := mapDelete s.workspaceClients wid }, [])
        else
          let s' : ServerState :=
            { s with workspaceClients := mapSet s.workspaceClients wid wsClients' }
          (s', broadcastToWorkspace s' wid
            (OutMsg.user_left client.userId wid) none)
      | none => (s, [])
    | none => (s, [])
  let s1 := step1.1
  let step2 : ServerState × List (String × OutMsg) :=
    match client.boardId with
    | some bid =>
      -- `if (client.boardId)`: "" is falsy, so the whole block is skipped
      if bid = "" then (s1, [])
      else
      match mapGet s1.boardClients bid with
      | some bdClients =>
        let bdClients' := bdClients.erase client.id
        if bdClients'.length = 0 then
          ({ s1 with boardClients := mapDelete s1.boardClients bid }, [])
        else
          let s' : ServerState :=
            { s1 with boardClients := mapSet s1.boardClients bid bdClients' }
          (s', broadcastToBoard s' bid
            (OutMsg.user_left_board client.userId bid) none)
      | none => (s1, [])
    | none => (s1, [])
  let s2 := step2.1
  ({ s2 with clients := s2.clients.filter (fun c => ¬ c.id = client.id) },
   step1.2 ++ step2.2)

/-- `handleMessage(client, message)`: the router's `switch` on `type`;
the `default` branch only logs. -/
def handleMessage (s : ServerState) (client : Client) (now : Nat)
    (message : InMsg) : ServerState × List (String × OutMsg) :=
  match message with
  | InMsg.join_workspace workspaceId => handleJoinWorkspace s client workspaceId
  | InMsg.join_board boardId => handleJoinBoard s client boardId
  | InMsg.card_moved payload => handleCardMoved s client now payload
  | InMsg.card_created payload => handleCardCreated s client now payload
  | InMsg.user_typing payload => handleUserTyping s client payload
  | InMsg.cursor_move payload => handleCursorMove s client payload
  | InMsg.unknown _ _ => (s, [])

/-- Externally visible websocket events driving the relay.  `message` is a
decoded envelope; `malformed` an undecodable frame (`JSON.parse` throws and
the catch block only logs); `socketClosed` models the transport's
readyState leaving OPEN (which the underlying socket does on its own,
before the `close` event is dispatched); `error`/`close` are the `ws.on`
handlers of those events. -/
inductive InEvent where
  | connect (clientId : String)
  | message (clientId : String) (m : InMsg)
  | malformed (clientId : String)
  | socketClosed (clientId : String)
  | error (clientId : String)
  | close (clientId : String)
  deriving Repr, DecidableEq

/-- Flip a connection's transport readyState out of OPEN. -/
def setSocketClosed (cs : List Client) (cid : String) : List Client :=
  cs.map (fun c => if c.id = cid then { c with readyState := false } else c)

/-- One dispatch of the relay's event loop: returns the new state and the
messages sent, as `(recipientClientId, message)` pairs in send order. -/
def step (s : ServerState) (now : Nat) (e : InEvent) :
    ServerState × List (String × OutMsg) :=
  match e with
  | InEvent.connect cid =>
    let client : Client :=
      { id := cid, readyState := true, userId := none,
        workspaceId := none, boardId := none }
    ({ s with clients := s.clients ++ [client] },
     [(cid, OutMsg.connected cid)])
  | InEvent.message cid m =>
    match findClient s.clients cid with
    | some client => handleMessage s client now m
    | none => (s, [])
  | InEvent.malformed _ => (s, [])
  | InEvent.socketClosed cid => ({ s with clients := setSocketClosed s.clients cid }, [])
  | InEvent.error _ => (s, [])
  | InEvent.close cid =>
    match findClient s.clients cid with
    | some client => handleDisconnect s client
    | none => (s, [])

/-- Which events the environment can actually deliver: a `connect` carries a
fresh uuid (collision-free per the spec), and per-socket events concern a
registered connection (`ws` fires no further events after `close`, which is
when the registry entry is removed). -/
def validEvent (s : ServerState) (e : InEvent) : Bool :=
  match e with
  | InEvent.connect cid => (findClient s.clients cid).isNone
  | InEvent.message cid _ => (findClient s.clients cid).isSome
  | InEvent.malformed cid => (findClient s.clients cid).isSome
  | InEvent.socketClosed cid => (findClient s.clients cid).isSome
  | InEvent.error cid => (findClient s.clients cid).isSome
  | InEvent.close cid => (findClient s.clients cid).isSome

/-- The state at process start: all three maps empty. -/
def initState : ServerState :=
  { clients := [], workspaceClients := [], boardClients := [] }

/-- States the relay can actually be in: reachable from `initState` by
valid events. -/
inductive Reachable : ServerState → Prop where
  | init : Reachable initState
  | next {s : ServerState} (now : Nat) (e : InEvent) :
      Reachable s → validEvent s e = true → Reachable (step s now e).1

/-- Room membership test: is `x` in room `r` of index `m`. -/
def memberOf (m : RoomMap) (r : String) (x : String) : Bool :=
  match mapGet m r with
  | some ms => x ∈ ms
  | none => false

/-- The transport-openness test the broadcast loop performs for a member id:
the member resolves in the registry and its `readyState` is `OPEN`. -/
def isOpen (cs : List Client) (x : String) : Bool :=
  match findClient cs x with
  | some c => c.readyState
  | none => false

/-- The user-identity field a serialized outbound message carries, when its
shape has one (`userId`, `movedBy` or `createdBy`). -/
def msgUserId : OutMsg → Option (Option String)
  | OutMsg.user_joined u _ => some u
  | OutMsg.user_joined_board u _ => some u
  | OutMsg.card_moved _ u _ => some u
  | OutMsg.card_created _ u _ => some u
  | OutMsg.user_typing u _ => some u
  | OutMsg.cursor_move u _ => some u
  | OutMsg.user_left u _ => some u
  | OutMsg.user_left_board u _ => some u
  | OutMsg.connected _ => none
  | OutMsg.workspace_users _ => none
  | OutMsg.board_users _ => none

/-- Mutual consistency of the two membership representations, as claimed:
the `workspaceId`/`boardId` field of a registered connection points at room
`R` iff the connection's id is in `R`'s member set, every room present in an
index is non-empty, and a connection id is in at most one room per flavor. -/
def roomConsistent (s : ServerState) : Prop :=
  (∀ c ∈ s.clients, ∀ r, c.workspaceId = some r ↔ memberOf s.workspaceClients r c.id = true) ∧
  (∀ c ∈ s.clients, ∀ r, c.boardId = some r ↔ memberOf s.boardClients r c.id = true) ∧
  (∀ r ms, mapGet s.workspaceClients r = some ms → ms ≠ []) ∧
  (∀ r ms, mapGet s.boardClients r = some ms → ms ≠ []) ∧
  (∀ x r r', memberOf s.workspaceClients r x = true →
    memberOf s.workspaceClients r' x = true → r = r') ∧
  (∀ x r r', memberOf s.boardClients r x = true →
    memberOf s.boardClients r' x = true → r = r')

/-- Well-formedness of one room flavor against the registry: member sets are
duplicate-free and non-empty, each registered connection is a member of the
room its field points at, and — for rooms whose id is a non-empty (truthy)
string — membership implies the field points back and every member id is a
registered connection.  Room `""` is exempt from the two reverse clauses:
the code's falsy removal guard (`if (client.workspaceId)` etc.) never
removes anyone from it, so it can hold stale or even unregistered ids. -/
structure RoomWF (cs : List Client) (m : RoomMap) (f : Client → Option String) : Prop where
  memNodup : ∀ r ms, mapGet m r = some ms → ms.Nodup
  nonempty : ∀ r ms, mapGet m r = some ms → ms ≠ []
  forward : ∀ c ∈ cs, ∀ r, f c = some r → memberOf m r c.id = true
  reverse : ∀ c ∈ cs, ∀ r, r ≠ "" → memberOf m r c.id = true → f c = some r
  registered : ∀ r x, r ≠ "" → memberOf m r x = true → ∃ c ∈ cs, c.id = x

/-- The relay's inductive state invariant: registered ids are distinct, both
room flavors are well-formed, and no connection ever has a user identity. -/
structure WF (s : ServerState) : Prop where
  idsNodup : (s.clients.map Client.id).Nodup
  wsWF : RoomWF s.clients s.workspaceClients Client.workspaceId
  bdWF : RoomWF s.clients s.boardClients Client.boardId
  usersNone : ∀ c ∈ s.clients, c.userId = none

/-- Run a list of events from process start, keeping the resulting state
(event timestamps are irrelevant to state evolution, so `now = 0`). -/
def run (es : List InEvent) : ServerState :=
  es.foldl (fun s e => (step s 0 e).1) initState

/-- The departure notifications one flavor of `handleDisconnect` produces:
nothing when the connection had no room of the flavor, when the room id is
the falsy `""` (the truthiness guard skips the block), when the room id is
stale, or when the room became empty; otherwise one `mk roomId` message per
remaining member with an open transport. -/
def departureMsgs (clients : List Client) (m : RoomMap) (roomIdOpt : Option String)
    (cid : String) (mk : String → OutMsg) : List (String × OutMsg) :=
  match roomIdOpt with
  | some roomId =>
    if roomId = "" then []
    else
    (match mapGet m roomId with
      | some ms =>
        if (ms.erase cid).length = 0 then []
        else broadcastToList clients (ms.erase cid) (mk roomId) none
      | none => [])
  | none => []

/-! ### Lemmas about the association-list maps and member sets -/

theorem mapGet_cons (p : String × List String) (t : RoomMap) (k : String) :
    mapGet (p :: t) k = if p.1 = k then some p.2 else mapGet t k := by
  unfold mapGet
  rw [List.find?_cons]
  by_cases h : p.1 = k <;> simp [h]

theorem mapGet_overwrite_self (m : RoomMap) (k : String) (v : List String)
    (h : (m.find? (fun p => p.1 = k)).isSome) :
    mapGet (m.map (fun p => if p.1 = k then (k, v) else p)) k = some v := by
  induction m with
  | nil => simp at h
  | cons p t ih =>
    rw [List.map_cons]
    by_cases hk : p.1 = k
    · rw [if_pos hk, mapGet_cons]
      simp
    · rw [if_neg hk, mapGet_cons, if_neg hk]
      rw [List.find?_cons, show (decide (p.1 = k)) = false by simp [hk]] at h
      exact ih h

theorem mapGet_overwrite_ne (m : RoomMap) (k : String) (v : List String)
    (k' : String) (h : k' ≠ k) :
    mapGet (m.map (fun p => if p.1 = k then (k, v) else p)) k' = mapGet m k' := by
  induction m with
  | nil => rfl
  | cons p t ih =>
    rw [List.map_cons, mapGet_cons, mapGet_cons]
    by_cases hk : p.1 = k
    · rw [if_pos hk]
      have : ¬((k, v).1 = k') := by simpa using Ne.symm h
      rw [if_neg this, if_neg (hk ▸ (fun hh => this (by simpa using hh)))]
      exact ih
    · rw [if_neg hk]
      by_cases hk' : p.1 = k'
      · rw [if_pos hk', if_pos hk']
      · rw [if_neg hk', if_neg hk']
        exact ih

theorem mapGet_append_one (m : RoomMap) (k : String) (v : List String) (k' : String) :
    mapGet (m ++ [(k, v)]) k' =
      match mapGet m k' with
      | some ms => some ms
      | none => if k' = k then some v else none := by
  induction m with
  | nil =>
    rw [List.nil_append, mapGet_cons]
    show (if k = k' then some v else mapGet [] k') = _
    by_cases h : k' = k
    · subst h
      simp [mapGet]
    · rw [if_neg (fun hh => h hh.symm)]
      simp [mapGet, h]
  | cons p t ih =>
    rw [List.cons_append, mapGet_cons, mapGet_cons]
    by_cases hk' : p.1 = k'
    · rw [if_pos hk', if_pos hk']
    · rw [if_neg hk', if_neg hk']
      exact ih

theorem mapGet_mapSet_self (m : RoomMap) (k : String) (v : List String) :
    mapGet (mapSet m k v) k = some v := by
  unfold mapSet
  split
  · exact mapGet_overwrite_self m k v (by assumption)
  · rename_i h
    rw [mapGet_append_one]
    rcases hf : mapGet m k with _ | ms
    · simp
    · unfold mapGet at hf
      rcases hf' : m.find? (fun p => p.1 = k) with _ | p
      · rw [hf'] at hf; simp at hf
      · exact absurd (by rw [hf']; rfl) h

theorem mapGet_mapSet_ne (m : RoomMap) (k : String) (v : List String)
    (k' : String) (h : k' ≠ k) :
    mapGet (mapSet m k v) k' = mapGet m k' := by
  unfold mapSet
  split
  · exact mapGet_overwrite_ne m k v k' h
  · rw [mapGet_append_one]
    rcases hf : mapGet m k' with _ | ms
    · simp [h]
    · rfl

theorem mapGet_mapDelete_self (m : RoomMap) (k : String) :
    mapGet (mapDelete m k) k = none := by
  unfold mapDelete
  induction m with
  | nil => rfl
  | cons p t ih =>
    rw [List.filter_cons]
    by_cases hk : p.1 = k
    · rw [if_neg (show ¬(decide ¬p.1 = k) = true by simp [hk])]
      exact ih
    · rw [if_pos (show (decide ¬p.1 = k) = true by simp [hk]), mapGet_cons, if_neg hk]
      exact ih

theorem mapGet_mapDelete_ne (m : RoomMap) (k : String) (k' : String) (h : k' ≠ k) :
    mapGet (mapDelete m k) k' = mapGet m k' := by
  unfold mapDelete
  induction m with
  | nil => rfl
  | cons p t ih =>
    rw [List.filter_cons, mapGet_cons]
    by_cases hk : p.1 = k
    · rw [if_neg (show ¬(decide ¬p.1 = k) = true by simp [hk]),
        if_neg (show ¬p.1 = k' by rw [hk]; exact fun hh => h hh.symm)]
      exact ih
    · rw [if_pos (show (decide ¬p.1 = k) = true by simp [hk]), mapGet_cons]
      by_cases hk' : p.1 = k'
      · rw [if_pos hk', if_pos hk']
      · rw [if_neg hk', if_neg hk']
        exact ih

theorem mem_setAdd (ms : List String) (x y : String) :
    y ∈ setAdd ms x ↔ y ∈ ms ∨ y = x := by
  unfold setAdd
  split
  · rename_i h
    constructor
    · exact Or.inl
    · rintro (hy | rfl)
      · exact hy
      · exact h
  · simp

theorem setAdd_ne_nil (ms : List String) (x : String) : setAdd ms x ≠ [] := by
  unfold setAdd
  split
  · rename_i h
    rintro rfl
    simp at h
  · simp

theorem setAdd_nodup (ms : List String) (x : String) (h : ms.Nodup) :
    (setAdd ms x).Nodup := by
  unfold setAdd
  split
  · exact h
  · rename_i hx
    refine List.Nodup.append h (by simp) ?_
    intro a ha hb
    rw [List.mem_singleton] at hb
    subst hb
    exact hx ha

theorem setAdd_of_mem (ms : List String) (x : String) (h : x ∈ ms) :
    setAdd ms x = ms := by
  unfold setAdd; simp [h]

theorem setAdd_of_not_mem (ms : List String) (x : String) (h : x ∉ ms) :
    setAdd ms x = ms ++ [x] := by
  unfold setAdd; simp [h]

theorem mapGet_roomJoin_self (m : RoomMap) (r cid : String) :
    mapGet (roomJoin m r cid) r = some (setAdd ((mapGet m r).getD []) cid) := by
  unfold roomJoin
  rcases h : mapGet m r with _ | ms
  · rw [mapGet_mapSet_self]
    rfl
  · rw [mapGet_mapSet_self]
    rfl

theorem mapGet_roomJoin_ne (m : RoomMap) (r cid r' : String) (h : r' ≠ r) :
    mapGet (roomJoin m r cid) r' = mapGet m r' := by
  unfold roomJoin
  rcases hm : mapGet m r with _ | ms <;> exact mapGet_mapSet_ne _ _ _ _ h

theorem mapGet_roomLeave_self_none (m : RoomMap) (r cid : String)
    (hm : mapGet m r = none) :
    mapGet (roomLeave m r cid) r = none := by
  unfold roomLeave
  rw [hm]
  exact hm

theorem mapGet_roomLeave_self_some (m : RoomMap) (r cid : String)
    (ms : List String) (hm : mapGet m r = some ms) :
    mapGet (roomLeave m r cid) r =
      if (ms.erase cid).length = 0 then none else some (ms.erase cid) := by
  unfold roomLeave
  rw [hm]
  show mapGet (if (ms.erase cid).length = 0 then mapDelete m r
      else mapSet m r (ms.erase cid)) r = _
  by_cases hl : (ms.erase cid).length = 0
  · rw [if_pos hl, if_pos hl]
    exact mapGet_mapDelete_self m r
  · rw [if_neg hl, if_neg hl]
    exact mapGet_mapSet_self m r _

theorem mapGet_roomLeave_ne (m : RoomMap) (r cid r' : String) (h : r' ≠ r) :
    mapGet (roomLeave m r cid) r' = mapGet m r' := by
  unfold roomLeave
  rcases hm : mapGet m r with _ | ms
  · rfl
  · show mapGet (if (ms.erase cid).length = 0 then mapDelete m r
        else mapSet m r (ms.erase cid)) r' = _
    by_cases hl : (ms.erase cid).length = 0
    · rw [if_pos hl]
      exact mapGet_mapDelete_ne m r r' h
    · rw [if_neg hl]
      exact mapGet_mapSet_ne m r _ r' h

theorem memberOf_eq_true_iff (m : RoomMap) (r x : String) :
    memberOf m r x = true ↔ ∃ ms, mapGet m r = some ms ∧ x ∈ ms := by
  unfold memberOf
  rcases h : mapGet m r with _ | ms <;> simp

theorem memberOf_roomJoin (m : RoomMap) (r cid r' x : String) :
    memberOf (roomJoin m r cid) r' x = true ↔
      (memberOf m r' x = true ∨ (r' = r ∧ x = cid)) := by
  by_cases hr : r' = r
  · subst hr
    rw [memberOf_eq_true_iff, memberOf_eq_true_iff]
    constructor
    · rintro ⟨ms, hms, hx⟩
      rw [mapGet_roomJoin_self] at hms
      cases hms
      rw [mem_setAdd] at hx
      rcases hx with hx | hx
      · rcases hg : mapGet m r' with _ | ms0
        · rw [hg] at hx; simp at hx
        · rw [hg] at hx
          exact Or.inl ⟨ms0, rfl, hx⟩
      · exact Or.inr ⟨rfl, hx⟩
    · intro h
      refine ⟨_, mapGet_roomJoin_self m r' cid, ?_⟩
      rw [mem_setAdd]
      rcases h with ⟨ms, hms, hx⟩ | ⟨_, hx⟩
      · rw [hms]
        exact Or.inl hx
      · exact Or.inr hx
  · rw [memberOf_eq_true_iff, memberOf_eq_true_iff, mapGet_roomJoin_ne m r cid r' hr]
    constructor
    · exact fun h => Or.inl h
    · rintro (h | ⟨hr', _⟩)
      · exact h
      · exact absurd hr' hr

theorem memberOf_roomLeave (m : RoomMap) (r cid r' x : String)
    (hnd : ∀ ms, mapGet m r = some ms → ms.Nodup) :
    memberOf (roomLeave m r cid) r' x = true ↔
      (memberOf m r' x = true ∧ ¬(r' = r ∧ x = cid)) := by
  by_cases hr : r' = r
  · subst hr
    rw [memberOf_eq_true_iff, memberOf_eq_true_iff]
    rcases hg : mapGet m r' with _ | ms
    · constructor
      · rintro ⟨ms', hms', _⟩
        rw [mapGet_roomLeave_self_none m r' cid hg] at hms'
        cases hms'
      · rintro ⟨⟨ms', hms', _⟩, _⟩
        cases hms'
    · have hms : ms.Nodup := hnd ms hg
      constructor
      · rintro ⟨ms', hms', hx⟩
        rw [mapGet_roomLeave_self_some m r' cid ms hg] at hms'
        by_cases hl : (ms.erase cid).length = 0
        · rw [if_pos hl] at hms'
          cases hms'
        · rw [if_neg hl] at hms'
          cases hms'
          rw [hms.mem_erase_iff] at hx
          exact ⟨⟨ms, rfl, hx.2⟩, fun hc => hx.1 hc.2⟩
      · rintro ⟨⟨ms', hms', hx⟩, hne⟩
        cases hms'
        have hxcid : x ≠ cid := fun hc => hne ⟨rfl, hc⟩
        refine ⟨ms.erase cid, ?_, hms.mem_erase_iff.2 ⟨hxcid, hx⟩⟩
        rw [mapGet_roomLeave_self_some m r' cid ms hg]
        have : (ms.erase cid).length ≠ 0 := by
          intro hl
          rw [List.length_eq_zero] at hl
          have : x ∈ ms.erase cid := hms.mem_erase_iff.2 ⟨hxcid, hx⟩
          rw [hl] at this
          simp at this
        rw [if_neg this]
  · rw [memberOf_eq_true_iff, memberOf_eq_true_iff, mapGet_roomLeave_ne m r cid r' hr]
    constructor
    · exact fun h => ⟨h, fun hc => hr hc.1⟩
    · exact fun h => h.1

/-! ### Lemmas about the connection registry -/

theorem findClient_mem (cs : List Client) (cid : String) (c : Client)
    (h : findClient cs cid = some c) : c ∈ cs ∧ c.id = cid := by
  unfold findClient at h
  refine ⟨List.mem_of_find?_eq_some h, ?_⟩
  have := List.find?_some h
  simpa using this

theorem findClient_eq_none_iff (cs : List Client) (cid : String) :
    findClient cs cid = none ↔ ∀ c ∈ cs, c.id ≠ cid := by
  unfold findClient
  rw [List.find?_eq_none]
  simp

theorem decide_id_false {a b : String} (h : b ≠ a) : (decide (a = b)) = false := by
  simp only [decide_eq_false_iff_not]
  exact fun hh => h hh.symm

theorem mem_id_unique (cs : List Client) (h : (cs.map Client.id).Nodup)
    (c1 c2 : Client) (h1 : c1 ∈ cs) (h2 : c2 ∈ cs) (hid : c1.id = c2.id) :
    c1 = c2 := by
  induction cs with
  | nil => cases h1
  | cons c t ih =>
    rw [List.map_cons, List.nodup_cons] at h
    rcases List.mem_cons.1 h1 with rfl | h1'
    · rcases List.mem_cons.1 h2 with rfl | h2'
      · rfl
      · have hmem : c2.id ∈ t.map Client.id := List.mem_map_of_mem Client.id h2'
        rw [← hid] at hmem
        exact absurd hmem h.1
    · rcases List.mem_cons.1 h2 with rfl | h2'
      · have hmem : c1.id ∈ t.map Client.id := List.mem_map_of_mem Client.id h1'
        rw [hid] at hmem
        exact absurd hmem h.1
      · exact ih h.2 h1' h2'

theorem findClient_of_mem_nodup (cs : List Client) (c : Client)
    (h : (cs.map Client.id).Nodup) (hc : c ∈ cs) :
    findClient cs c.id = some c := by
  rcases hf : findClient cs c.id with _ | c'
  · rw [findClient_eq_none_iff] at hf
    exact absurd rfl (hf c hc)
  · have ⟨hc', hid⟩ := findClient_mem cs c.id c' hf
    rw [mem_id_unique cs h c' c hc' hc hid]

theorem findClient_append_ne (cs : List Client) (c : Client) (x : String)
    (h : x ≠ c.id) : findClient (cs ++ [c]) x = findClient cs x := by
  unfold findClient
  induction cs with
  | nil =>
    rw [List.nil_append]
    rw [List.find?_cons, decide_id_false h]
  | cons d t ih =>
    rw [List.cons_append, List.find?_cons, List.find?_cons]
    rcases hd : decide (d.id = x) with _ | _
    · exact ih
    · rfl

theorem findClient_append_self (cs : List Client) (c : Client)
    (h : findClient cs c.id = none) : findClient (cs ++ [c]) c.id = some c := by
  unfold findClient at h ⊢
  induction cs with
  | nil => simp [List.find?_cons]
  | cons d t ih =>
    rw [List.find?_cons] at h
    rcases hd : decide (d.id = c.id) with _ | _
    · rw [hd] at h
      rw [List.cons_append, List.find?_cons, hd]
      exact ih h
    · rw [hd] at h
      cases h

theorem mem_replaceClient (cs : List Client) (c' c : Client) :
    c ∈ replaceClient cs c' ↔
      ∃ c0 ∈ cs, c = (if c0.id = c'.id then c' else c0) := by
  unfold replaceClient
  rw [List.mem_map]
  constructor
  · rintro ⟨c0, hc0, rfl⟩
    exact ⟨c0, hc0, rfl⟩
  · rintro ⟨c0, hc0, rfl⟩
    exact ⟨c0, hc0, rfl⟩

theorem ids_replaceClient (cs : List Client) (c' : Client) :
    (replaceClient cs c').map Client.id = cs.map Client.id := by
  unfold replaceClient
  rw [List.map_map]
  apply List.map_congr_left
  intro c _
  by_cases h : c.id = c'.id
  · simp [h]
  · simp [h]

theorem findClient_replaceClient_ne (cs : List Client) (c' : Client) (x : String)
    (h : x ≠ c'.id) : findClient (replaceClient cs c') x = findClient cs x := by
  unfold findClient replaceClient
  induction cs with
  | nil => rfl
  | cons d t ih =>
    rw [List.map_cons, List.find?_cons, List.find?_cons]
    by_cases hd : d.id = c'.id
    · rw [if_pos hd]
      rw [decide_id_false h, decide_id_false (show x ≠ d.id by rw [hd]; exact h)]
      exact ih
    · rw [if_neg hd]
      rcases hdx : decide (d.id = x) with _ | _
      · exact ih
      · rfl

theorem findClient_replaceClient_self (cs : List Client) (c' : Client)
    (h : ∃ c0 ∈ cs, c0.id = c'.id) :
    findClient (replaceClient cs c') c'.id = some c' := by
  unfold findClient replaceClient
  induction cs with
  | nil => simp at h
  | cons d t ih =>
    rw [List.map_cons, List.find?_cons]
    by_cases hd : d.id = c'.id
    · rw [if_pos hd]
      simp
    · rw [if_neg hd, show (decide (d.id = c'.id)) = false by simp [hd]]
      rcases h with ⟨c0, hc0, hid⟩
      rcases List.mem_cons.1 hc0 with rfl | hc0
      · exact absurd hid hd
      · exact ih ⟨c0, hc0, hid⟩

theorem findClient_filter_self (cs : List Client) (cid : String) :
    findClient (cs.filter (fun c => ¬ c.id = cid)) cid = none := by
  rw [findClient_eq_none_iff]
  intro c hc
  have := (List.mem_filter.1 hc).2
  simpa using this

theorem findClient_filter_ne (cs : List Client) (cid x : String) (h : x ≠ cid) :
    findClient (cs.filter (fun c => ¬ c.id = cid)) x = findClient cs x := by
  unfold findClient
  induction cs with
  | nil => rfl
  | cons d t ih =>
    rw [List.filter_cons]
    by_cases hd : d.id = cid
    · rw [if_neg (show ¬(decide ¬d.id = cid) = true by simp [hd]), List.find?_cons,
        decide_id_false (show x ≠ d.id by rw [hd]; exact h)]
      exact ih
    · rw [if_pos (show (decide ¬d.id = cid) = true by simp [hd]),
        List.find?_cons, List.find?_cons]
      rcases hdx : decide (d.id = x) with _ | _
      · exact ih
      · rfl

theorem ids_setSocketClosed (cs : List Client) (cid : String) :
    (setSocketClosed cs cid).map Client.id = cs.map Client.id := by
  unfold setSocketClosed
  rw [List.map_map]
  apply List.map_congr_left
  intro c _
  by_cases h : c.id = cid
  · simp [h]
  · simp [h]

theorem mem_setSocketClosed (cs : List Client) (cid : String) (c : Client) :
    c ∈ setSocketClosed cs cid ↔
      ∃ c0 ∈ cs, c = (if c0.id = cid then { c0 with readyState := false } else c0) := by
  unfold setSocketClosed
  rw [List.mem_map]
  constructor
  · rintro ⟨c0, hc0, rfl⟩
    exact ⟨c0, hc0, rfl⟩
  · rintro ⟨c0, hc0, rfl⟩
    exact ⟨c0, hc0, rfl⟩

/-! ### Lemmas about the broadcast engine -/

theorem sendVal (cs : List Client) (msg : OutMsg) (ex : Option String) (a : String) :
    (if some a = ex then none
     else
       match findClient cs a with
       | some c => if c.readyState = true then some (a, msg) else none
       | none => none) =
      (if some a ≠ ex ∧ isOpen cs a = true then some (a, msg) else none) := by
  by_cases he : some a = ex
  · rw [if_pos he, if_neg (fun hc => hc.1 he)]
  · rw [if_neg he]
    rcases hfc : findClient cs a with _ | c
    · show (none : Option (String × OutMsg)) = _
      rw [if_neg (by
        rintro ⟨-, ho⟩
        unfold isOpen at ho
        rw [hfc] at ho
        cases ho)]
    · show (if c.readyState = true then some (a, msg) else none) = _
      by_cases hr : c.readyState = true
      · rw [if_pos hr, if_pos ⟨he, by unfold isOpen; rw [hfc]; exact hr⟩]
      · rw [if_neg hr, if_neg (by
          rintro ⟨-, ho⟩
          unfold isOpen at ho
          rw [hfc] at ho
          exact hr ho)]

theorem broadcastToList_cons (cs : List Client) (a : String) (t : List String)
    (msg : OutMsg) (ex : Option String) :
    broadcastToList cs (a :: t) msg ex =
      (if some a ≠ ex ∧ isOpen cs a = true then [(a, msg)] else []) ++
        broadcastToList cs t msg ex := by
  unfold broadcastToList
  rw [List.filterMap_cons]
  have hv := sendVal cs msg ex a
  by_cases hc : some a ≠ ex ∧ isOpen cs a = true
  · rw [if_pos hc] at hv
    rw [hv, if_pos hc]
    rfl
  · rw [if_neg hc] at hv
    rw [hv, if_neg hc]
    rfl

theorem mem_broadcastToList (cs : List Client) (ms : List String) (msg : OutMsg)
    (ex : Option String) (x : String) (msg' : OutMsg) :
    (x, msg') ∈ broadcastToList cs ms msg ex ↔
      (msg' = msg ∧ x ∈ ms ∧ some x ≠ ex ∧ isOpen cs x = true) := by
  induction ms with
  | nil =>
    constructor
    · intro h
      cases h
    · rintro ⟨-, hx, -, -⟩
      cases hx
  | cons a t ih =>
    rw [broadcastToList_cons, List.mem_append]
    constructor
    · rintro (hhead | htail)
      · by_cases hc : some a ≠ ex ∧ isOpen cs a = true
        · rw [if_pos hc] at hhead
          rw [List.mem_singleton] at hhead
          injection hhead with h1 h2
          subst h1
          subst h2
          exact ⟨rfl, List.mem_cons_self x t, hc.1, hc.2⟩
        · rw [if_neg hc] at hhead
          cases hhead
      · have := ih.1 htail
        exact ⟨this.1, List.mem_cons_of_mem a this.2.1, this.2.2⟩
    · rintro ⟨rfl, hx, he, ho⟩
      rcases List.mem_cons.1 hx with rfl | hx'
      · left
        rw [if_pos ⟨he, ho⟩]
        exact List.mem_singleton.2 rfl
      · right
        exact ih.2 ⟨rfl, hx', he, ho⟩

theorem count_broadcastToList (cs : List Client) (ms : List String) (msg : OutMsg)
    (x : String) (hnd : ms.Nodup) :
    List.count (x, msg) (broadcastToList cs ms msg none) =
      if x ∈ ms ∧ isOpen cs x = true then 1 else 0 := by
  induction ms with
  | nil =>
    rw [if_neg (by rintro ⟨hx, -⟩; cases hx)]
    rfl
  | cons a t ih =>
    rw [List.nodup_cons] at hnd
    rw [broadcastToList_cons, List.count_append, ih hnd.2]
    by_cases hoa : isOpen cs a = true
    · rw [if_pos ⟨by simp, hoa⟩]
      by_cases hxa : x = a
      · subst hxa
        rw [if_neg (fun hc => hnd.1 hc.1), if_pos ⟨List.mem_cons_self x t, hoa⟩]
        simp
      · have h0 : List.count (x, msg) [(a, msg)] = 0 := by
          rw [List.count_eq_zero]
          intro hc
          rw [List.mem_singleton] at hc
          injection hc with h1 _
          exact hxa h1
        rw [h0]
        by_cases hc : x ∈ t ∧ isOpen cs x = true
        · rw [if_pos hc, if_pos ⟨List.mem_cons_of_mem a hc.1, hc.2⟩]
        · rw [if_neg hc, if_neg (fun hc' =>
            hc ⟨(List.mem_cons.1 hc'.1).resolve_left hxa, hc'.2⟩)]
    · rw [if_neg (fun hc => hoa hc.2)]
      by_cases hxa : x = a
      · subst hxa
        rw [if_neg (fun hc => hnd.1 hc.1), if_neg (fun hc => hoa hc.2)]
        rfl
      · by_cases hc : x ∈ t ∧ isOpen cs x = true
        · rw [if_pos hc, if_pos ⟨List.mem_cons_of_mem a hc.1, hc.2⟩]
          rfl
        · rw [if_neg hc, if_neg (fun hc' =>
            hc ⟨(List.mem_cons.1 hc'.1).resolve_left hxa, hc'.2⟩)]
          rfl

/-! ### Preservation of room-flavor well-formedness -/

theorem roomJoin_memNodup (m : RoomMap) (r cid : String)
    (h : ∀ r' ms, mapGet m r' = some ms → ms.Nodup) :
    ∀ r' ms, mapGet (roomJoin m r cid) r' = some ms → ms.Nodup := by
  intro r' ms hms
  by_cases hr : r' = r
  · subst hr
    rw [mapGet_roomJoin_self] at hms
    cases hms
    apply setAdd_nodup
    rcases hg : mapGet m r' with _ | ms0
    · exact List.nodup_nil
    · exact h r' ms0 hg
  · rw [mapGet_roomJoin_ne m r cid r' hr] at hms
    exact h r' ms hms

theorem roomLeave_memNodup (m : RoomMap) (r cid : String)
    (h : ∀ r' ms, mapGet m r' = some ms → ms.Nodup) :
    ∀ r' ms, mapGet (roomLeave m r cid) r' = some ms → ms.Nodup := by
  intro r' ms hms
  by_cases hr : r' = r
  · subst hr
    rcases hg : mapGet m r' with _ | ms0
    · rw [mapGet_roomLeave_self_none m r' cid hg] at hms
      cases hms
    · rw [mapGet_roomLeave_self_some m r' cid ms0 hg] at hms
      by_cases hl : (ms0.erase cid).length = 0
      · rw [if_pos hl] at hms
        cases hms
      · rw [if_neg hl] at hms
        cases hms
        exact (h r' ms0 hg).erase cid
  · rw [mapGet_roomLeave_ne m r cid r' hr] at hms
    exact h r' ms hms

theorem roomJoin_nonempty (m : RoomMap) (r cid : String)
    (h : ∀ r' ms, mapGet m r' = some ms → ms ≠ []) :
    ∀ r' ms, mapGet (roomJoin m r cid) r' = some ms → ms ≠ [] := by
  intro r' ms hms
  by_cases hr : r' = r
  · subst hr
    rw [mapGet_roomJoin_self] at hms
    cases hms
    exact setAdd_ne_nil _ _
  · rw [mapGet_roomJoin_ne m r cid r' hr] at hms
    exact h r' ms hms

theorem roomLeave_nonempty (m : RoomMap) (r cid : String)
    (h : ∀ r' ms, mapGet m r' = some ms → ms ≠ []) :
    ∀ r' ms, mapGet (roomLeave m r cid) r' = some ms → ms ≠ [] := by
  intro r' ms hms
  by_cases hr : r' = r
  · subst hr
    rcases hg : mapGet m r' with _ | ms0
    · rw [mapGet_roomLeave_self_none m r' cid hg] at hms
      cases hms
    · rw [mapGet_roomLeave_self_some m r' cid ms0 hg] at hms
      by_cases hl : (ms0.erase cid).length = 0
      · rw [if_pos hl] at hms
        cases hms
      · rw [if_neg hl] at hms
        cases hms
        intro hnil
        exact hl (by rw [hnil]; rfl)
  · rw [mapGet_roomLeave_ne m r cid r' hr] at hms
    exact h r' ms hms

/-! ### The truthiness-guarded leave block -/

theorem roomLeaveTruthy_none (m : RoomMap) (cid : String) :
    roomLeaveTruthy m none cid = m := rfl

theorem roomLeaveTruthy_falsy (m : RoomMap) (cid : String) :
    roomLeaveTruthy m (some "") cid = m := by
  show (if ("" : String) = "" then m else roomLeave m "" cid) = m
  rw [if_pos rfl]

theorem roomLeaveTruthy_truthy (m : RoomMap) (prev cid : String) (h : prev ≠ "") :
    roomLeaveTruthy m (some prev) cid = roomLeave m prev cid := by
  show (if prev = "" then m else roomLeave m prev cid) = _
  rw [if_neg h]

theorem roomLeaveTruthy_memNodup (m : RoomMap) (o : Option String) (cid : String)
    (h : ∀ r ms, mapGet m r = some ms → ms.Nodup) :
    ∀ r ms, mapGet (roomLeaveTruthy m o cid) r = some ms → ms.Nodup := by
  rcases o with _ | prev
  · exact h
  · by_cases hp : prev = ""
    · subst hp
      rw [roomLeaveTruthy_falsy]
      exact h
    · rw [roomLeaveTruthy_truthy m prev cid hp]
      exact roomLeave_memNodup m prev cid h

theorem roomLeaveTruthy_nonempty (m : RoomMap) (o : Option String) (cid : String)
    (h : ∀ r ms, mapGet m r = some ms → ms ≠ []) :
    ∀ r ms, mapGet (roomLeaveTruthy m o cid) r = some ms → ms ≠ [] := by
  rcases o with _ | prev
  · exact h
  · by_cases hp : prev = ""
    · subst hp
      rw [roomLeaveTruthy_falsy]
      exact h
    · rw [roomLeaveTruthy_truthy m prev cid hp]
      exact roomLeave_nonempty m prev cid h

/-- The guarded leave block never changes the membership of a connection id
other than the leaver's. -/
theorem memberOf_roomLeaveTruthy_other (m : RoomMap) (o : Option String)
    (cid x : String) (hx : x ≠ cid)
    (hnd : ∀ r ms, mapGet m r = some ms → ms.Nodup) :
    ∀ r, memberOf (roomLeaveTruthy m o cid) r x = memberOf m r x := by
  intro r
  rcases o with _ | prev
  · rfl
  · by_cases hp : prev = ""
    · subst hp
      rw [roomLeaveTruthy_falsy]
    · rw [roomLeaveTruthy_truthy m prev cid hp]
      rcases hmem : memberOf m r x with _ | _
      · rcases hmem' : memberOf (roomLeave m prev cid) r x with _ | _
        · rfl
        · have h2 := ((memberOf_roomLeave m prev cid r x
            (fun ms hg => hnd prev ms hg)).1 hmem').1
          rw [hmem] at h2
          cases h2
      · exact (memberOf_roomLeave m prev cid r x
          (fun ms hg => hnd prev ms hg)).2 ⟨hmem, fun hc' => hx hc'.2⟩

/-- After the guarded leave block of a join or disconnect, the acting
connection's id is in no room of the flavor with a non-empty id (membership
in room `""` may survive: the falsy guard never removes it). -/
theorem leaveTruthy_not_member {cs : List Client} {m : RoomMap}
    {f : Client → Option String} (h : RoomWF cs m f)
    {client : Client} (hc : client ∈ cs) :
    ∀ r, r ≠ "" →
      memberOf (roomLeaveTruthy m (f client) client.id) r client.id = false := by
  intro r hr
  rcases hfc : f client with _ | prev
  · rw [roomLeaveTruthy_none]
    rcases hmem : memberOf m r client.id with _ | _
    · rfl
    · have := h.reverse client hc r hr hmem
      rw [hfc] at this
      cases this
  · by_cases hp : prev = ""
    · subst hp
      rw [roomLeaveTruthy_falsy]
      rcases hmem : memberOf m r client.id with _ | _
      · rfl
      · have h2 := h.reverse client hc r hr hmem
        rw [hfc] at h2
        injection h2 with h2
        exact absurd h2.symm hr
  
    · rw [roomLeaveTruthy_truthy m prev client.id hp]
      rcases hmem : memberOf (roomLeave m prev client.id) r client.id with _ | _
      · rfl
      · exfalso
        have hiff := memberOf_roomLeave m prev client.id r client.id
          (fun ms hg => h.memNodup prev ms hg)
        have h4 := hiff.1 hmem
        have h5 := h.reverse client hc r hr h4.1
        rw [hfc] at h5
        injection h5 with h5
        exact h4.2 ⟨h5.symm, rfl⟩

/-- The same-flavor half of a join handler preserves room well-formedness. -/
theorem RoomWF.join {cs : List Client} {m : RoomMap} {f : Client → Option String}
    (h : RoomWF cs m f)
    {client client' : Client} (hc : client ∈ cs)
    (hid : client'.id = client.id) {rid : String} (hf : f client' = some rid) :
    RoomWF (replaceClient cs client')
      (roomJoin (roomLeaveTruthy m (f client) client.id) rid client.id) f := by
  have hnd1 := roomLeaveTruthy_memNodup m (f client) client.id h.memNodup
  have hne1 := roomLeaveTruthy_nonempty m (f client) client.id h.nonempty
  refine ⟨roomJoin_memNodup _ rid client.id hnd1,
    roomJoin_nonempty _ rid client.id hne1, ?_, ?_, ?_⟩
  · intro c hcmem r hfr
    rcases (mem_replaceClient cs client' c).1 hcmem with ⟨c0, hc0, rfl⟩
    by_cases h0 : c0.id = client'.id
    · rw [if_pos h0] at hfr ⊢
      rw [hf] at hfr
      injection hfr with hfr
      subst hfr
      rw [hid]
      exact (memberOf_roomJoin _ rid client.id rid client.id).2 (Or.inr ⟨rfl, rfl⟩)
    · rw [if_neg h0] at hfr ⊢
      have hx0 : c0.id ≠ client.id := by
        rw [← hid]
        exact h0
      rw [memberOf_roomJoin]
      left
      rw [memberOf_roomLeaveTruthy_other m (f client) client.id c0.id hx0 h.memNodup r]
      exact h.forward c0 hc0 r hfr
  · intro c hcmem r hr hmem
    rcases (mem_replaceClient cs client' c).1 hcmem with ⟨c0, hc0, rfl⟩
    by_cases h0 : c0.id = client'.id
    · rw [if_pos h0] at hmem ⊢
      rw [hid] at hmem
      rcases (memberOf_roomJoin _ rid client.id r client.id).1 hmem with hmem' | ⟨hrr, -⟩
      · rw [leaveTruthy_not_member h hc r hr] at hmem'
        cases hmem'
      · rw [hf, hrr]
    · rw [if_neg h0] at hmem ⊢
      have hx0 : c0.id ≠ client.id := by
        rw [← hid]
        exact h0
      rcases (memberOf_roomJoin _ rid client.id r c0.id).1 hmem with hmem' | ⟨-, hxc⟩
      · rw [memberOf_roomLeaveTruthy_other m (f client) client.id c0.id hx0 h.memNodup r]
          at hmem'
        exact h.reverse c0 hc0 r hr hmem'
      · exact absurd hxc hx0
  · intro r x hr hmem
    rcases (memberOf_roomJoin _ rid client.id r x).1 hmem with hmem' | ⟨-, hxc⟩
    · by_cases hx : x = client.id
      · subst hx
        exact ⟨client', (mem_replaceClient cs client' client').2
          ⟨client, hc, (if_pos hid.symm).symm⟩, hid⟩
      · rw [memberOf_roomLeaveTruthy_other m (f client) client.id x hx h.memNodup r]
          at hmem'
        rcases h.registered r x hr hmem' with ⟨c0, hc0, hc0id⟩
        refine ⟨if c0.id = client'.id then client' else c0,
          (mem_replaceClient cs client' _).2 ⟨c0, hc0, rfl⟩, ?_⟩
        by_cases h0 : c0.id = client'.id
        · rw [if_pos h0, ← h0]
          exact hc0id
        · rw [if_neg h0]
          exact hc0id
    · subst hxc
      exact ⟨client', (mem_replaceClient cs client' client').2
        ⟨client, hc, (if_pos hid.symm).symm⟩, hid⟩

/-- Replacing the registry entry of a client without changing its id or its
room field of this flavor preserves the flavor's well-formedness. -/
theorem RoomWF.replaceOther {cs : List Client} {m : RoomMap}
    {g : Client → Option String} (h : RoomWF cs m g)
    {client client' : Client} (hc : client ∈ cs) (hid : client'.id = client.id)
    (hg : g client' = g client) :
    RoomWF (replaceClient cs client') m g := by
  refine ⟨h.memNodup, h.nonempty, ?_, ?_, ?_⟩
  · intro c hcmem r hfr
    rcases (mem_replaceClient cs client' c).1 hcmem with ⟨c0, hc0, rfl⟩
    by_cases h0 : c0.id = client'.id
    · rw [if_pos h0] at hfr ⊢
      rw [hg] at hfr
      rw [hid]
      exact h.forward client hc r hfr
    · rw [if_neg h0] at hfr ⊢
      exact h.forward c0 hc0 r hfr
  · intro c hcmem r hr hmem
    rcases (mem_replaceClient cs client' c).1 hcmem with ⟨c0, hc0, rfl⟩
    by_cases h0 : c0.id = client'.id
    · rw [if_pos h0] at hmem ⊢
      rw [hid] at hmem
      rw [hg]
      exact h.reverse client hc r hr hmem
    · rw [if_neg h0] at hmem ⊢
      exact h.reverse c0 hc0 r hr hmem
  · intro r x hr hmem
    rcases h.registered r x hr hmem with ⟨c0, hc0, hc0id⟩
    refine ⟨if c0.id = client'.id then client' else c0,
      (mem_replaceClient cs client' _).2 ⟨c0, hc0, rfl⟩, ?_⟩
    by_cases h0 : c0.id = client'.id
    · rw [if_pos h0, ← h0]
      exact hc0id
    · rw [if_neg h0]
      exact hc0id

/-- One flavor's half of `handleDisconnect` (the guarded leave of the
flavor's room plus dropping the registry entry) preserves the flavor's
well-formedness. -/
theorem RoomWF.remove {cs : List Client} {m : RoomMap}
    {f : Client → Option String} (h : RoomWF cs m f)
    {client : Client} (hc : client ∈ cs) :
    RoomWF (cs.filter (fun c => ¬ c.id = client.id))
      (roomLeaveTruthy m (f client) client.id) f := by
  refine ⟨roomLeaveTruthy_memNodup m (f client) client.id h.memNodup,
    roomLeaveTruthy_nonempty m (f client) client.id h.nonempty, ?_, ?_, ?_⟩
  · intro c hcmem r hfr
    have hcf := List.mem_filter.1 hcmem
    have hcid : c.id ≠ client.id := by simpa using hcf.2
    rw [memberOf_roomLeaveTruthy_other m (f client) client.id c.id hcid h.memNodup r]
    exact h.forward c hcf.1 r hfr
  · intro c hcmem r hr hmem
    have hcf := List.mem_filter.1 hcmem
    have hcid : c.id ≠ client.id := by simpa using hcf.2
    rw [memberOf_roomLeaveTruthy_other m (f client) client.id c.id hcid h.memNodup r]
      at hmem
    exact h.reverse c hcf.1 r hr hmem
  · intro r x hr hmem
    by_cases hx : x = client.id
    · rw [hx, leaveTruthy_not_member h hc r hr] at hmem
      cases hmem
    · rw [memberOf_roomLeaveTruthy_other m (f client) client.id x hx h.memNodup r]
        at hmem
      rcases h.registered r x hr hmem with ⟨c0, hc0, hc0id⟩
      refine ⟨c0, List.mem_filter.2 ⟨hc0, ?_⟩, hc0id⟩
      simp only [decide_eq_true_eq]
      rw [hc0id]
      exact hx

/-- Registering a fresh, room-less connection preserves well-formedness. -/
theorem RoomWF.connect {cs : List Client} {m : RoomMap}
    {f : Client → Option String} (h : RoomWF cs m f) {c : Client}
    (hfresh : ∀ c0 ∈ cs, c0.id ≠ c.id) (hfc : f c = none) :
    RoomWF (cs ++ [c]) m f := by
  refine ⟨h.memNodup, h.nonempty, ?_, ?_, ?_⟩
  · intro c0 hc0 r hfr
    rcases List.mem_append.1 hc0 with hc0' | hc0'
    · exact h.forward c0 hc0' r hfr
    · rw [List.mem_singleton] at hc0'
      subst hc0'
      rw [hfc] at hfr
      cases hfr
  · intro c0 hc0 r hr hmem
    rcases List.mem_append.1 hc0 with hc0' | hc0'
    · exact h.reverse c0 hc0' r hr hmem
    · rw [List.mem_singleton] at hc0'
      subst hc0'
      rcases h.registered r c0.id hr hmem with ⟨c1, hc1, hc1id⟩
      exact absurd hc1id (hfresh c1 hc1)
  · intro r x hr hmem
    rcases h.registered r x hr hmem with ⟨c0, hc0, hc0id⟩
    exact ⟨c0, List.mem_append_left _ hc0, hc0id⟩

/-- A transport readyState change never touches ids or room fields, so it
preserves well-formedness. -/
theorem RoomWF.socketClosed {cs : List Client} {m : RoomMap}
    {f : Client → Option String} (h : RoomWF cs m f) (cid : String)
    (hf : ∀ c : Client, f { c with readyState := false } = f c) :
    RoomWF (setSocketClosed cs cid) m f := by
  refine ⟨h.memNodup, h.nonempty, ?_, ?_, ?_⟩
  · intro c hcmem r hfr
    rcases (mem_setSocketClosed cs cid c).1 hcmem with ⟨c0, hc0, rfl⟩
    by_cases h0 : c0.id = cid
    · rw [if_pos h0] at hfr ⊢
      rw [hf c0] at hfr
      exact h.forward c0 hc0 r hfr
    · rw [if_neg h0] at hfr ⊢
      exact h.forward c0 hc0 r hfr
  · intro c hcmem r hr hmem
    rcases (mem_setSocketClosed cs cid c).1 hcmem with ⟨c0, hc0, rfl⟩
    by_cases h0 : c0.id = cid
    · rw [if_pos h0] at hmem ⊢
      rw [hf c0]
      exact h.reverse c0 hc0 r hr hmem
    · rw [if_neg h0] at hmem ⊢
      exact h.reverse c0 hc0 r hr hmem
  · intro r x hr hmem
    rcases h.registered r x hr hmem with ⟨c0, hc0, hc0id⟩
    refine ⟨if c0.id = cid then { c0 with readyState := false } else c0,
      (mem_setSocketClosed cs cid _).2 ⟨c0, hc0, rfl⟩, ?_⟩
    by_cases h0 : c0.id = cid
    · rw [if_pos h0]
      exact hc0id
    · rw [if_neg h0]
      exact hc0id

/-! ### State components of the handlers -/

theorem handleJoinWorkspace_fst (s : ServerState) (client : Client) (wid : String) :
    (handleJoinWorkspace s client wid).1 =
      { s with
        clients := replaceClient s.clients { client with workspaceId := some wid },
        workspaceClients := roomJoin
          (roomLeaveTruthy s.workspaceClients client.workspaceId client.id)
          wid client.id } := rfl

theorem handleJoinBoard_fst (s : ServerState) (client : Client) (bid : String) :
    (handleJoinBoard s client bid).1 =
      { s with
        clients := replaceClient s.clients { client with boardId := some bid },
        boardClients := roomJoin
          (roomLeaveTruthy s.boardClients client.boardId client.id)
          bid client.id } := rfl

theorem handleDisconnect_fst (s : ServerState) (client : Client) :
    (handleDisconnect s client).1 =
      { clients := s.clients.filter (fun c => ¬ c.id = client.id),
        workspaceClients :=
          roomLeaveTruthy s.workspaceClients client.workspaceId client.id,
        boardClients :=
          roomLeaveTruthy s.boardClients client.boardId client.id } := by
  unfold handleDisconnect roomLeaveTruthy roomLeave
  rcases hw : client.workspaceId with _ | wid
  · simp only []
    rcases hb : client.boardId with _ | bid
    · rfl
    · simp only []
      by_cases hb0 : bid = ""
      · simp only [if_pos hb0]
      · simp only [if_neg hb0]
        rcases hgb : mapGet s.boardClients bid with _ | msb
        · rfl
        · simp only []
          by_cases hlb : (msb.erase client.id).length = 0
          · simp only [if_pos hlb]
          · simp only [if_neg hlb]
  · simp only []
    by_cases hw0 : wid = ""
    · simp only [if_pos hw0]
      rcases hb : client.boardId with _ | bid
      · rfl
      · simp only []
        by_cases hb0 : bid = ""
        · simp only [if_pos hb0]
        · simp only [if_neg hb0]
          rcases hgb : mapGet s.boardClients bid with _ | msb
          · rfl
          · simp only []
            by_cases hlb : (msb.erase client.id).length = 0
            · simp only [if_pos hlb]
            · simp only [if_neg hlb]
    · simp only [if_neg hw0]
      rcases hgw : mapGet s.workspaceClients wid with _ | msw
      · simp only []
        rcases hb : client.boardId with _ | bid
        · rfl
        · simp only []
          by_cases hb0 : bid = ""
          · simp only [if_pos hb0]
          · simp only [if_neg hb0]
            rcases hgb : mapGet s.boardClients bid with _ | msb
            · rfl
            · simp only []
              by_cases hlb : (msb.erase client.id).length = 0
              · simp only [if_pos hlb]
              · simp only [if_neg hlb]
      · simp only []
        by_cases hlw : (msw.erase client.id).length = 0
        · simp only [if_pos hlw]
          rcases hb : client.boardId with _ | bid
          · rfl
          · simp only []
            by_cases hb0 : bid = ""
            · simp only [if_pos hb0]
            · simp only [if_neg hb0]
              rcases hgb : mapGet s.boardClients bid with _ | msb
              · rfl
              · simp only []
                by_cases hlb : (msb.erase client.id).length = 0
                · simp only [if_pos hlb]
                · simp only [if_neg hlb]
        · simp only [if_neg hlw]
          rcases hb : client.boardId with _ | bid
          · rfl
          · simp only []
            by_cases hb0 : bid = ""
            · simp only [if_pos hb0]
            · simp only [if_neg hb0]
              rcases hgb : mapGet s.boardClients bid with _ | msb
              · rfl
              · simp only []
                by_cases hlb : (msb.erase client.id).length = 0
                · simp only [if_pos hlb]
                · simp only [if_neg hlb]

theorem handleCardMoved_fst (s : ServerState) (client : Client) (now : Nat)
    (p : Payload) : (handleCardMoved s client now p).1 = s := by
  unfold handleCardMoved
  rcases client.boardId with _ | bid
  · rfl
  · by_cases hb0 : bid = ""
    · simp only [if_pos hb0]
    · simp only [if_neg hb0]

theorem handleCardCreated_fst (s : ServerState) (client : Client) (now : Nat)
    (p : Payload) : (handleCardCreated s client now p).1 = s := by
  unfold handleCardCreated
  rcases client.boardId with _ | bid
  · rfl
  · by_cases hb0 : bid = ""
    · simp only [if_pos hb0]
    · simp only [if_neg hb0]

theorem handleUserTyping_fst (s : ServerState) (client : Client)
    (p : Payload) : (handleUserTyping s client p).1 = s := by
  unfold handleUserTyping
  rcases client.boardId with _ | bid
  · rfl
  · by_cases hb0 : bid = ""
    · simp only [if_pos hb0]
    · simp only [if_neg hb0]

theorem handleCursorMove_fst (s : ServerState) (client : Client)
    (p : Payload) : (handleCursorMove s client p).1 = s := by
  unfold handleCursorMove
  rcases client.boardId with _ | bid
  · rfl
  · by_cases hb0 : bid = ""
    · simp only [if_pos hb0]
    · simp only [if_neg hb0]

/-! ### The inductive invariant holds in every reachable state -/

theorem usersNone_replace {cs : List Client}
    (h : ∀ c ∈ cs, c.userId = none) {client' : Client}
    (h' : client'.userId = none) :
    ∀ c ∈ replaceClient cs client', c.userId = none := by
  intro c hc
  rcases (mem_replaceClient cs client' c).1 hc with ⟨c0, hc0, rfl⟩
  by_cases h0 : c0.id = client'.id
  · rw [if_pos h0]
    exact h'
  · rw [if_neg h0]
    exact h c0 hc0

theorem WF.initial : WF initState := by
  refine ⟨List.nodup_nil, ⟨?_, ?_, ?_, ?_, ?_⟩, ⟨?_, ?_, ?_, ?_, ?_⟩, ?_⟩
  · intro r ms hms
    cases hms
  · intro r ms hms
    cases hms
  · intro c hc
    cases hc
  · intro c hc
    cases hc
  · intro r x hr hmem
    cases hmem
  · intro r ms hms
    cases hms
  · intro r ms hms
    cases hms
  · intro c hc
    cases hc
  · intro c hc
    cases hc
  · intro r x hr hmem
    cases hmem
  · intro c hc
    cases hc

theorem WF.preserve {s : ServerState} (h : WF s) (now : Nat) (e : InEvent)
    (hv : validEvent s e = true) : WF (step s now e).1 := by
  cases e with
  | connect cid =>
    have hnone : findClient s.clients cid = none := by
      have hv' : (findClient s.clients cid).isNone = true := hv
      rcases hfc : findClient s.clients cid with _ | c
      · rfl
      · rw [hfc] at hv'
        cases hv' 
    have hfresh : ∀ c0 ∈ s.clients, c0.id ≠ cid :=
      (findClient_eq_none_iff _ _).1 hnone
    refine ⟨?_, ?_, ?_, ?_⟩
    · show ((s.clients ++ [_]).map Client.id).Nodup
      rw [List.map_append]
      refine List.Nodup.append h.idsNodup (by simp) ?_
      intro a ha hb
      rcases List.mem_map.1 ha with ⟨c0, hc0, rfl⟩
      rcases List.mem_map.1 hb with ⟨c1, hc1, hceq⟩
      rw [List.mem_singleton] at hc1
      subst hc1
      exact hfresh c0 hc0 hceq.symm
    · exact h.wsWF.connect hfresh rfl
    · exact h.bdWF.connect hfresh rfl
    · intro c hc
      rcases List.mem_append.1 hc with hc' | hc'
      · exact h.usersNone c hc'
      · rw [List.mem_singleton] at hc'
        subst hc'
        rfl
  | message cid m =>
    show WF (match findClient s.clients cid with
      | some client => handleMessage s client now m
      | none => (s, [])).1
    rcases hfc : findClient s.clients cid with _ | client
    · exact h
    · obtain ⟨hcmem, hcid⟩ := findClient_mem _ _ _ hfc
      have husr : client.userId = none := h.usersNone client hcmem
      cases m with
      | join_workspace wid =>
        show WF (handleJoinWorkspace s client wid).1
        rw [handleJoinWorkspace_fst]
        refine ⟨?_, ?_, ?_, ?_⟩
        · show ((replaceClient s.clients _).map Client.id).Nodup
          rw [ids_replaceClient]
          exact h.idsNodup
        · refine RoomWF.join h.wsWF hcmem ?_ ?_ <;> rfl
        · refine RoomWF.replaceOther h.bdWF hcmem ?_ ?_ <;> rfl
        · exact usersNone_replace h.usersNone husr
      | join_board bid =>
        show WF (handleJoinBoard s client bid).1
        rw [handleJoinBoard_fst]
        refine ⟨?_, ?_, ?_, ?_⟩
        · show ((replaceClient s.clients _).map Client.id).Nodup
          rw [ids_replaceClient]
          exact h.idsNodup
        · refine RoomWF.replaceOther h.wsWF hcmem ?_ ?_ <;> rfl
        · refine RoomWF.join h.bdWF hcmem ?_ ?_ <;> rfl
        · exact usersNone_replace h.usersNone husr
      | card_moved p =>
        show WF (handleCardMoved s client now p).1
        rw [handleCardMoved_fst]
        exact h
      | card_created p =>
        show WF (handleCardCreated s client now p).1
        rw [handleCardCreated_fst]
        exact h
      | user_typing p =>
        show WF (handleUserTyping s client p).1
        rw [handleUserTyping_fst]
        exact h
      | cursor_move p =>
        show WF (handleCursorMove s client p).1
        rw [handleCursorMove_fst]
        exact h
      | unknown ty p =>
        exact h
  | malformed cid =>
    exact h
  | socketClosed cid =>
    refine ⟨?_, ?_, ?_, ?_⟩
    · show ((setSocketClosed s.clients cid).map Client.id).Nodup
      rw [ids_setSocketClosed]
      exact h.idsNodup
    · exact h.wsWF.socketClosed cid (fun c => rfl)
    · exact h.bdWF.socketClosed cid (fun c => rfl)
    · intro c hc
      rcases (mem_setSocketClosed s.clients cid c).1 hc with ⟨c0, hc0, rfl⟩
      by_cases h0 : c0.id = cid
      · rw [if_pos h0]
        exact h.usersNone c0 hc0
      · rw [if_neg h0]
        exact h.usersNone c0 hc0
  | error cid =>
    exact h
  | close cid =>
    show WF (match findClient s.clients cid with
      | some client => handleDisconnect s client
      | none => (s, [])).1
    rcases hfc : findClient s.clients cid with _ | client
    · exact h
    · obtain ⟨hcmem, hcid⟩ := findClient_mem _ _ _ hfc
      show WF (handleDisconnect s client).1
      rw [handleDisconnect_fst]
      refine ⟨?_, ?_, ?_, ?_⟩
      · show ((s.clients.filter _).map Client.id).Nodup
        exact ((List.filter_sublist s.clients).map Client.id).nodup h.idsNodup
      · exact h.wsWF.remove hcmem
      · exact h.bdWF.remove hcmem
      · intro c hc
        exact h.usersNone c (List.mem_filter.1 hc).1

theorem reachable_WF {s : ServerState} (h : Reachable s) : WF s := by
  induction h with
  | init => exact WF.initial
  | next now e hs hv ih => exact ih.preserve now e hv

/-! ### Output components of the handlers -/

theorem handleJoinWorkspace_snd (s : ServerState) (client : Client) (wid : String) :
    (handleJoinWorkspace s client wid).2 =
      broadcastToWorkspace (handleJoinWorkspace s client wid).1 wid
        (OutMsg.user_joined client.userId wid) (some client.id) ++
      [(client.id, OutMsg.workspace_users
        (match mapGet (handleJoinWorkspace s client wid).1.workspaceClients wid with
          | some ms => ms.length
          | none => 0))] := rfl

theorem handleJoinBoard_snd (s : ServerState) (client : Client) (bid : String) :
    (handleJoinBoard s client bid).2 =
      broadcastToBoard (handleJoinBoard s client bid).1 bid
        (OutMsg.user_joined_board client.userId bid) (some client.id) ++
      [(client.id, OutMsg.board_users
        (match mapGet (handleJoinBoard s client bid).1.boardClients bid with
          | some ms => ms.length
          | none => 0))] := rfl

theorem handleJoinWorkspace_members (s : ServerState) (client : Client) (wid : String) :
    mapGet (handleJoinWorkspace s client wid).1.workspaceClients wid =
      some (setAdd ((mapGet
        (roomLeaveTruthy s.workspaceClients client.workspaceId client.id)
        wid).getD []) client.id) := by
  rw [handleJoinWorkspace_fst]
  exact mapGet_roomJoin_self _ wid client.id

theorem handleJoinBoard_members (s : ServerState) (client : Client) (bid : String) :
    mapGet (handleJoinBoard s client bid).1.boardClients bid =
      some (setAdd ((mapGet
        (roomLeaveTruthy s.boardClients client.boardId client.id)
        bid).getD []) client.id) := by
  rw [handleJoinBoard_fst]
  exact mapGet_roomJoin_self _ bid client.id

theorem handleJoinWorkspace_snd_eq (s : ServerState) (client : Client) (wid : String)
    (ms2 : List String)
    (hms2 : mapGet (handleJoinWorkspace s client wid).1.workspaceClients wid = some ms2) :
    (handleJoinWorkspace s client wid).2 =
      broadcastToList (handleJoinWorkspace s client wid).1.clients ms2
        (OutMsg.user_joined client.userId wid) (some client.id) ++
      [(client.id, OutMsg.workspace_users ms2.length)] := by
  rw [handleJoinWorkspace_snd]
  unfold broadcastToWorkspace
  rw [hms2]

theorem handleJoinBoard_snd_eq (s : ServerState) (client : Client) (bid : String)
    (ms2 : List String)
    (hms2 : mapGet (handleJoinBoard s client bid).1.boardClients bid = some ms2) :
    (handleJoinBoard s client bid).2 =
      broadcastToList (handleJoinBoard s client bid).1.clients ms2
        (OutMsg.user_joined_board client.userId bid) (some client.id) ++
      [(client.id, OutMsg.board_users ms2.length)] := by
  rw [handleJoinBoard_snd]
  unfold broadcastToBoard
  rw [hms2]

theorem handleCardMoved_snd (s : ServerState) (client : Client) (now : Nat)
    (p : Payload) :
    (handleCardMoved s client now p).2 =
      (match client.boardId with
        | none => []
        | some bid =>
          if bid = "" then []
          else broadcastToBoard s bid
            (OutMsg.card_moved p client.userId now) none) := by
  unfold handleCardMoved
  rcases client.boardId with _ | bid
  · rfl
  · by_cases hb0 : bid = ""
    · simp only [if_pos hb0]
    · simp only [if_neg hb0]

theorem handleCardCreated_snd (s : ServerState) (client : Client) (now : Nat)
    (p : Payload) :
    (handleCardCreated s client now p).2 =
      (match client.boardId with
        | none => []
        | some bid =>
          if bid = "" then []
          else broadcastToBoard s bid
            (OutMsg.card_created p client.userId now) none) := by
  unfold handleCardCreated
  rcases client.boardId with _ | bid
  · rfl
  · by_cases hb0 : bid = ""
    · simp only [if_pos hb0]
    · simp only [if_neg hb0]

theorem handleUserTyping_snd (s : ServerState) (client : Client) (p : Payload) :
    (handleUserTyping s client p).2 =
      (match client.boardId with
        | none => []
        | some bid =>
          if bid = "" then []
          else broadcastToBoard s bid
            (OutMsg.user_typing client.userId p) (some client.id)) := by
  unfold handleUserTyping
  rcases client.boardId with _ | bid
  · rfl
  · by_cases hb0 : bid = ""
    · simp only [if_pos hb0]
    · simp only [if_neg hb0]

theorem handleCursorMove_snd (s : ServerState) (client : Client) (p : Payload) :
    (handleCursorMove s client p).2 =
      (match client.boardId with
        | none => []
        | some bid =>
          if bid = "" then []
          else broadcastToBoard s bid
            (OutMsg.cursor_move client.userId p) (some client.id)) := by
  unfold handleCursorMove
  rcases client.boardId with _ | bid
  · rfl
  · by_cases hb0 : bid = ""
    · simp only [if_pos hb0]
    · simp only [if_neg hb0]

theorem handleDisconnect_snd (s : ServerState) (client : Client) :
    (handleDisconnect s client).2 =
      (match client.workspaceId with
        | some wid =>
          if wid = "" then []
          else (match mapGet s.workspaceClients wid with
            | some ms =>
              if (ms.erase client.id).length = 0 then []
              else broadcastToList s.clients (ms.erase client.id)
                (OutMsg.user_left client.userId wid) none
            | none => [])
        | none => []) ++
      (match client.boardId with
        | some bid =>
          if bid = "" then []
          else (match mapGet s.boardClients bid with
            | some ms =>
              if (ms.erase client.id).length = 0 then []
              else broadcastToList s.clients (ms.erase client.id)
                (OutMsg.user_left_board client.userId bid) none
            | none => [])
        | none => []) := by
  unfold handleDisconnect broadcastToWorkspace broadcastToBoard
  rcases hw : client.workspaceId with _ | wid
  · simp only []
    rcases hb : client.boardId with _ | bid
    · rfl
    · simp only []
      by_cases hb0 : bid = ""
      · simp only [if_pos hb0]
      · simp only [if_neg hb0]
        rcases hgb : mapGet s.boardClients bid with _ | msb
        · rfl
        · simp only []
          by_cases hlb : (msb.erase client.id).length = 0
          · simp only [if_pos hlb]
          · simp only [if_neg hlb]
            rw [mapGet_mapSet_self]
  · simp only []
    by_cases hw0 : wid = ""
    · simp only [if_pos hw0]
      rcases hb : client.boardId with _ | bid
      · rfl
      · simp only []
        by_cases hb0 : bid = ""
        · simp only [if_pos hb0]
        · simp only [if_neg hb0]
          rcases hgb : mapGet s.boardClients bid with _ | msb
          · rfl
          · simp only []
            by_cases hlb : (msb.erase client.id).length = 0
            · simp only [if_pos hlb]
            · simp only [if_neg hlb]
              rw [mapGet_mapSet_self]
    · simp only [if_neg hw0]
      rcases hgw : mapGet s.workspaceClients wid with _ | msw
      · simp only []
        rcases hb : client.boardId with _ | bid
        · rfl
        · simp only []
          by_cases hb0 : bid = ""
          · simp only [if_pos hb0]
          · simp only [if_neg hb0]
            rcases hgb : mapGet s.boardClients bid with _ | msb
            · rfl
            · simp only []
              by_cases hlb : (msb.erase client.id).length = 0
              · simp only [if_pos hlb]
              · simp only [if_neg hlb]
                rw [mapGet_mapSet_self]
      · simp only []
        by_cases hlw : (msw.erase client.id).length = 0
        · simp only [if_pos hlw]
          rcases hb : client.boardId with _ | bid
          · rfl
          · simp only []
            by_cases hb0 : bid = ""
            · simp only [if_pos hb0]
            · simp only [if_neg hb0]
              rcases hgb : mapGet s.boardClients bid with _ | msb
              · rfl
              · simp only []
                by_cases hlb : (msb.erase client.id).length = 0
                · simp only [if_pos hlb]
                · simp only [if_neg hlb]
                  rw [mapGet_mapSet_self]
        · simp only [if_neg hlw]
          rw [mapGet_mapSet_self]
          rcases hb : client.boardId with _ | bid
          · rfl
          · simp only []
            by_cases hb0 : bid = ""
            · simp only [if_pos hb0]
            · simp only [if_neg hb0]
              rcases hgb : mapGet s.boardClients bid with _ | msb
              · rfl
              · simp only []
                by_cases hlb : (msb.erase client.id).length = 0
                · simp only [if_pos hlb]
                · simp only [if_neg hlb]
                  rw [mapGet_mapSet_self]

/-! ### Small step-reduction helpers -/

theorem step_message_eq (s : ServerState) (cid : String) (client : Client)
    (hfc : findClient s.clients cid = some client) (now : Nat) (m : InMsg) :
    step s now (InEvent.message cid m) = handleMessage s client now m := by
  show (match findClient s.clients cid with
    | some client => handleMessage s client now m
    | none => (s, [])) = _
  rw [hfc]

theorem step_close_eq (s : ServerState) (cid : String) (client : Client)
    (hfc : findClient s.clients cid = some client) (now : Nat) :
    step s now (InEvent.close cid) = handleDisconnect s client := by
  show (match findClient s.clients cid with
    | some client => handleDisconnect s client
    | none => (s, [])) = _
  rw [hfc]

theorem isSome_of_find {s : ServerState} {cid : String} {client : Client}
    (hfc : findClient s.clients cid = some client) :
    (findClient s.clients cid).isSome = true := by
  rw [hfc]
  rfl

/-! ### The claims -/

/-- C1: the claim that in every reachable state the two representations of
room membership agree — in particular that a connection id belongs to at
most one workspace room — is FALSE of the code: `join_workspace("")`
followed by `join_workspace("X")` leaves the id in both rooms `""` and
`"X"`, because the removal guard `if (client.workspaceId)` treats the
previous room id `""` as falsy and skips the whole removal block.  The
resulting reachable state also violates the iff between the `workspaceId`
field and membership (the field says `"X"` while the id is still a member
of `""`). -/
theorem room_membership_consistency_fails :
    Reachable (run [InEvent.connect "a",
      InEvent.message "a" (InMsg.join_workspace ""),
      InEvent.message "a" (InMsg.join_workspace "X")]) ∧
    ¬ roomConsistent (run [InEvent.connect "a",
      InEvent.message "a" (InMsg.join_workspace ""),
      InEvent.message "a" (InMsg.join_workspace "X")]) := by
  constructor
  · show Reachable (step (step (step initState 0 (InEvent.connect "a")).1 0
      (InEvent.message "a" (InMsg.join_workspace ""))).1 0
      (InEvent.message "a" (InMsg.join_workspace "X"))).1
    exact Reachable.next 0 _ (Reachable.next 0 _
      (Reachable.next 0 _ Reachable.init (by decide)) (by decide)) (by decide)
  · intro hcon
    have h1 : memberOf (run [InEvent.connect "a",
        InEvent.message "a" (InMsg.join_workspace ""),
        InEvent.message "a" (InMsg.join_workspace "X")]).workspaceClients
        "" "a" = true := by decide
    have h2 : memberOf (run [InEvent.connect "a",
        InEvent.message "a" (InMsg.join_workspace ""),
        InEvent.message "a" (InMsg.join_workspace "X")]).workspaceClients
        "X" "a" = true := by decide
    have h3 := hcon.2.2.2.2.1 "a" "" "X" h1 h2
    exact absurd h3 (by decide)

/-- C2 counterexample: two clauses of the claim fail without further
qualification.  With R1 = R2 = "r", after `join_workspace(R1)` then
`join_workspace(R2)` the connection's id is still in R1's member set.  And
with R1 = "" (and R2 = "X"), the falsy removal guard skips the removal, so
the id is still in R1 = ""'s member set too — and the connection is then a
member of two rooms, not "exactly" the new one. -/
theorem rejoin_same_workspace_cex :
    memberOf (run [InEvent.connect "a",
      InEvent.message "a" (InMsg.join_workspace "r"),
      InEvent.message "a" (InMsg.join_workspace "r")]).workspaceClients
      "r" "a" = true ∧
    memberOf (run [InEvent.connect "a",
      InEvent.message "a" (InMsg.join_workspace ""),
      InEvent.message "a" (InMsg.join_workspace "X")]).workspaceClients
      "" "a" = true ∧
    memberOf (run [InEvent.connect "a",
      InEvent.message "a" (InMsg.join_workspace ""),
      InEvent.message "a" (InMsg.join_workspace "X")]).workspaceClients
      "X" "a" = true := by
  refine ⟨by decide, by decide, by decide⟩

/-- C2 amended: for rooms R1 ≠ R2 with R1 a truthy (non-empty) id, after
`join_workspace(R1)` then `join_workspace(R2)` by the same registered
connection, the connection's `workspaceId` field is R2, among workspace
rooms with truthy ids it is a member of exactly {R2}, R1's member set no
longer contains its id, and R1 stays in the index only with a non-empty
member set (it is deleted when emptied).  (Membership in the falsy room
`""`, which no removal ever touches, may additionally persist.) -/
theorem workspace_switch_moves_membership (s : ServerState) (h : Reachable s)
    (client : Client) (hc : client ∈ s.clients) (R1 R2 : String) (hne : R1 ≠ R2)
    (hR1 : R1 ≠ "") (now1 now2 : Nat) :
    (∀ c ∈ (step (step s now1 (InEvent.message client.id (InMsg.join_workspace R1))).1
        now2 (InEvent.message client.id (InMsg.join_workspace R2))).1.clients,
      c.id = client.id → c.workspaceId = some R2) ∧
    (∀ W, W ≠ "" →
      (memberOf (step (step s now1 (InEvent.message client.id (InMsg.join_workspace R1))).1
        now2 (InEvent.message client.id (InMsg.join_workspace R2))).1.workspaceClients
        W client.id = true ↔ W = R2)) ∧
    memberOf (step (step s now1 (InEvent.message client.id (InMsg.join_workspace R1))).1
        now2 (InEvent.message client.id (InMsg.join_workspace R2))).1.workspaceClients
        R1 client.id = false ∧
    (∀ ms, mapGet (step (step s now1 (InEvent.message client.id (InMsg.join_workspace R1))).1
        now2 (InEvent.message client.id (InMsg.join_workspace R2))).1.workspaceClients
        R1 = some ms → ms ≠ []) := by
  have hWF := reachable_WF h
  have hfc : findClient s.clients client.id = some client :=
    findClient_of_mem_nodup s.clients client hWF.idsNodup hc
  have h1 : Reachable (step s now1 (InEvent.message client.id (InMsg.join_workspace R1))).1 :=
    Reachable.next now1 _ h (isSome_of_find hfc)
  set s1 := (step s now1 (InEvent.message client.id (InMsg.join_workspace R1))).1 with hs1
  have hWF1 := reachable_WF h1
  have hs1eq : s1 = (handleJoinWorkspace s client R1).1 := by
    rw [hs1, step_message_eq s client.id client hfc now1]
    rfl
  have hc1mem : { client with workspaceId := some R1 } ∈ s1.clients := by
    rw [hs1eq, handleJoinWorkspace_fst]
    exact (mem_replaceClient _ _ _).2 ⟨client, hc, (if_pos rfl).symm⟩
  have hfc1 : findClient s1.clients client.id =
      some { client with workspaceId := some R1 } :=
    findClient_of_mem_nodup s1.clients _ hWF1.idsNodup hc1mem
  have h2 : Reachable (step s1 now2 (InEvent.message client.id (InMsg.join_workspace R2))).1 :=
    Reachable.next now2 _ h1 (isSome_of_find hfc1)
  set s2 := (step s1 now2 (InEvent.message client.id (InMsg.join_workspace R2))).1 with hs2
  have hWF2 := reachable_WF h2
  have hs2eq : s2 = (handleJoinWorkspace s1 { client with workspaceId := some R1 } R2).1 := by
    rw [hs2, step_message_eq s1 client.id _ hfc1 now2]
    rfl
  have hc2mem : { client with workspaceId := some R2 } ∈ s2.clients := by
    rw [hs2eq, handleJoinWorkspace_fst]
    exact (mem_replaceClient _ _ _).2 ⟨{ client with workspaceId := some R1 }, hc1mem,
      (if_pos rfl).symm⟩
  have hiff : ∀ W, W ≠ "" →
      (memberOf s2.workspaceClients W client.id = true ↔ W = R2) := by
    intro W hW
    constructor
    · intro hmem
      have h3 := hWF2.wsWF.reverse _ hc2mem W hW hmem
      injection h3 with h3
      exact h3.symm
    · rintro rfl
      exact hWF2.wsWF.forward _ hc2mem W rfl
  refine ⟨?_, hiff, ?_, fun ms hms => hWF2.wsWF.nonempty R1 ms hms⟩
  · intro c hcmem hcid
    have : c = { client with workspaceId := some R2 } :=
      mem_id_unique s2.clients hWF2.idsNodup c _ hcmem hc2mem hcid
    rw [this]
  · rcases hmem : memberOf s2.workspaceClients R1 client.id with _ | _
    · rfl
    · exact absurd ((hiff R1 hR1).1 hmem) hne

/-- Witness for C2's amended theorem: connection "a" joins "r1" then "r2";
its membership in "r1" is gone. -/
theorem workspace_switch_moves_membership_witness :
    memberOf (step (step (step initState 0 (InEvent.connect "a")).1 0
        (InEvent.message "a" (InMsg.join_workspace "r1"))).1 0
        (InEvent.message "a" (InMsg.join_workspace "r2"))).1.workspaceClients
      "r1" "a" = false :=
  (workspace_switch_moves_membership (step initState 0 (InEvent.connect "a")).1
    (Reachable.next 0 _ Reachable.init (by decide))
    { id := "a", readyState := true, userId := none, workspaceId := none, boardId := none }
    (by decide) "r1" "r2" (by decide) (by decide) 0 0).2.2.1

/-- C5: a `card_moved`, `card_created`, `user_typing` or `cursor_move`
message from a registered connection whose `boardId` is unset is a silent
no-op: the state (registry and both room indexes) is unchanged and no
message is sent to anyone. -/
theorem premature_board_message_noop (s : ServerState) (cid : String)
    (client : Client) (now : Nat) (payload : Payload)
    (hfc : findClient s.clients cid = some client)
    (hb : client.boardId = none) :
    step s now (InEvent.message cid (InMsg.card_moved payload)) = (s, []) ∧
    step s now (InEvent.message cid (InMsg.card_created payload)) = (s, []) ∧
    step s now (InEvent.message cid (InMsg.user_typing payload)) = (s, []) ∧
    step s now (InEvent.message cid (InMsg.cursor_move payload)) = (s, []) := by
  refine ⟨?_, ?_, ?_, ?_⟩
  · rw [step_message_eq s cid client hfc now]
    show handleCardMoved s client now payload = (s, [])
    unfold handleCardMoved
    rw [hb]
  · rw [step_message_eq s cid client hfc now]
    show handleCardCreated s client now payload = (s, [])
    unfold handleCardCreated
    rw [hb]
  · rw [step_message_eq s cid client hfc now]
    show handleUserTyping s client payload = (s, [])
    unfold handleUserTyping
    rw [hb]
  · rw [step_message_eq s cid client hfc now]
    show handleCursorMove s client payload = (s, [])
    unfold handleCursorMove
    rw [hb]

/-- Witness for C5: a freshly connected client (no `join_board` yet) sends
`card_moved`; nothing happens. -/
theorem premature_board_message_noop_witness :
    step (step initState 0 (InEvent.connect "a")).1 0
      (InEvent.message "a" (InMsg.card_moved "p")) =
      ((step initState 0 (InEvent.connect "a")).1, []) :=
  (premature_board_message_noop (step initState 0 (InEvent.connect "a")).1 "a"
    { id := "a", readyState := true, userId := none, workspaceId := none, boardId := none }
    0 "p" (by decide) rfl).1

/-- C7: an inbound envelope whose `type` is outside the fixed enumeration,
and an undecodable (non-JSON) frame, are logged and dropped: the state is
unchanged (registry, both indexes, and every transport stay as they were),
no reply is sent, and any subsequent event is processed exactly as it would
have been without the dropped message. -/
theorem router_drops_unknown_and_malformed (s : ServerState) (cid : String)
    (ty : String) (payload : Payload) (now now' : Nat) (e' : InEvent) :
    step s now (InEvent.message cid (InMsg.unknown ty payload)) = (s, []) ∧
    step s now (InEvent.malformed cid) = (s, []) ∧
    step (step s now (InEvent.message cid (InMsg.unknown ty payload))).1 now' e' =
      step s now' e' ∧
    step (step s now (InEvent.malformed cid)).1 now' e' = step s now' e' := by
  have h1 : step s now (InEvent.message cid (InMsg.unknown ty payload)) = (s, []) := by
    show (match findClient s.clients cid with
      | some client => handleMessage s client now (InMsg.unknown ty payload)
      | none => (s, [])) = (s, [])
    rcases hfc : findClient s.clients cid with _ | client
    · rfl
    · rfl
  exact ⟨h1, rfl, by rw [h1], rfl⟩

theorem memberOf_get (m : RoomMap) (r x : String) (ms : List String)
    (h : mapGet m r = some ms) : memberOf m r x = true ↔ x ∈ ms := by
  rw [memberOf_eq_true_iff]
  constructor
  · rintro ⟨ms', hms', hx⟩
    rw [h] at hms'
    cases hms'
    exact hx
  · intro hx
    exact ⟨ms, h, hx⟩

theorem isOpen_replaceClient_ne (cs : List Client) (c' : Client) (x : String)
    (h : x ≠ c'.id) : isOpen (replaceClient cs c') x = isOpen cs x := by
  unfold isOpen
  rw [findClient_replaceClient_ne cs c' x h]

/-- C3 counterexample: board "b1" holds connections "b" then "a"; when "a"
issues `join_board("b1")` a second time in a row, the relay broadcasts a
second `user_joined_board` for "a" to the other member "b" (and re-sends
the member count to "a"), so a duplicate join notification IS produced,
refuting the claim's "no duplicate join notification" clause. -/
theorem double_join_board_renotifies_cex :
    (step (run [InEvent.connect "a", InEvent.connect "b",
        InEvent.message "b" (InMsg.join_board "b1"),
        InEvent.message "a" (InMsg.join_board "b1")]) 0
        (InEvent.message "a" (InMsg.join_board "b1"))).2 =
      [("b", OutMsg.user_joined_board none "b1"),
       ("a", OutMsg.board_users 2)] := by decide

/-- C3 amended: issuing `join_board(B)` twice in a row is idempotent on the
room index — B's member set (and hence its size) is unchanged by the second
join — but it is not notification-free: the second join re-broadcasts
`user_joined_board` to every other member of B whose transport is open, and
re-sends the member count to the joiner. -/
theorem double_join_board_membership_idempotent (s : ServerState)
    (h : Reachable s) (client : Client) (hc : client ∈ s.clients)
    (B : String) (now1 now2 : Nat) :
    (∀ x, memberOf (step (step s now1 (InEvent.message client.id (InMsg.join_board B))).1
        now2 (InEvent.message client.id (InMsg.join_board B))).1.boardClients B x =
      memberOf (step s now1 (InEvent.message client.id (InMsg.join_board B))).1.boardClients B x) ∧
    ((mapGet (step (step s now1 (InEvent.message client.id (InMsg.join_board B))).1
        now2 (InEvent.message client.id (InMsg.join_board B))).1.boardClients B).map List.length =
      (mapGet (step s now1 (InEvent.message client.id (InMsg.join_board B))).1.boardClients B).map List.length) ∧
    (∀ x, x ≠ client.id →
      memberOf (step s now1 (InEvent.message client.id (InMsg.join_board B))).1.boardClients B x = true →
      isOpen s.clients x = true →
      (x, OutMsg.user_joined_board client.userId B) ∈
        (step (step s now1 (InEvent.message client.id (InMsg.join_board B))).1
          now2 (InEvent.message client.id (InMsg.join_board B))).2) := by
  have hWF := reachable_WF h
  have hfc : findClient s.clients client.id = some client :=
    findClient_of_mem_nodup s.clients client hWF.idsNodup hc
  have h1 : Reachable (step s now1 (InEvent.message client.id (InMsg.join_board B))).1 :=
    Reachable.next now1 _ h (isSome_of_find hfc)
  set s1 := (step s now1 (InEvent.message client.id (InMsg.join_board B))).1 with hs1
  have hWF1 := reachable_WF h1
  have hs1eq : s1 = (handleJoinBoard s client B).1 := by
    rw [hs1, step_message_eq s client.id client hfc now1]
    rfl
  have hc1mem : { client with boardId := some B } ∈ s1.clients := by
    rw [hs1eq, handleJoinBoard_fst]
    exact (mem_replaceClient _ _ _).2 ⟨client, hc, (if_pos rfl).symm⟩
  have hfc1 : findClient s1.clients client.id =
      some { client with boardId := some B } :=
    findClient_of_mem_nodup s1.clients _ hWF1.idsNodup hc1mem
  have h2 : Reachable (step s1 now2 (InEvent.message client.id (InMsg.join_board B))).1 :=
    Reachable.next now2 _ h1 (isSome_of_find hfc1)
  set s2 := (step s1 now2 (InEvent.message client.id (InMsg.join_board B))).1 with hs2
  have hWF2 := reachable_WF h2
  have hs2eq : s2 = (handleJoinBoard s1 { client with boardId := some B } B).1 := by
    rw [hs2, step_message_eq s1 client.id _ hfc1 now2]
    rfl
  have hsnd : (step s1 now2 (InEvent.message client.id (InMsg.join_board B))).2 =
      (handleJoinBoard s1 { client with boardId := some B } B).2 := by
    rw [step_message_eq s1 client.id _ hfc1 now2]
    rfl
  have hbc : s2.boardClients =
      roomJoin (roomLeaveTruthy s1.boardClients (some B) client.id) B client.id := by
    rw [hs2eq, handleJoinBoard_fst]
  have hmem1 : memberOf s1.boardClients B client.id = true :=
    hWF1.bdWF.forward _ hc1mem B rfl
  have hnd1 : ∀ ms, mapGet s1.boardClients B = some ms → ms.Nodup :=
    fun ms hms => hWF1.bdWF.memNodup B ms hms
  have hmemEq : ∀ x, memberOf s2.boardClients B x = memberOf s1.boardClients B x := by
    intro x
    rw [hbc]
    by_cases hx : x = client.id
    · subst hx
      rw [hmem1]
      exact (memberOf_roomJoin _ B client.id B client.id).2 (Or.inr ⟨rfl, rfl⟩)
    · by_cases hB0 : B = ""
      · subst hB0
        rw [roomLeaveTruthy_falsy]
        rcases hmem : memberOf s1.boardClients "" x with _ | _
        · rcases hmem2 : memberOf (roomJoin s1.boardClients "" client.id) "" x with _ | _
          · rfl
          · rcases (memberOf_roomJoin _ "" client.id "" x).1 hmem2 with hmem3 | ⟨-, hxid⟩
            · rw [hmem] at hmem3
              cases hmem3
            · exact absurd hxid hx
        · exact (memberOf_roomJoin _ "" client.id "" x).2 (Or.inl hmem)
      · rw [roomLeaveTruthy_truthy s1.boardClients B client.id hB0]
        rcases hmem : memberOf s1.boardClients B x with _ | _
        · rcases hmem2 : memberOf (roomJoin (roomLeave s1.boardClients B client.id)
              B client.id) B x with _ | _
          · rfl
          · rcases (memberOf_roomJoin _ B client.id B x).1 hmem2 with hmem3 | ⟨-, hxid⟩
            · have h4 := ((memberOf_roomLeave s1.boardClients B client.id B x hnd1).1 hmem3).1
              rw [hmem] at h4
              cases h4
            · exact absurd hxid hx
        · exact (memberOf_roomJoin _ B client.id B x).2
            (Or.inl ((memberOf_roomLeave s1.boardClients B client.id B x hnd1).2
              ⟨hmem, fun hcc => hx hcc.2⟩))
  rcases (memberOf_eq_true_iff s1.boardClients B client.id).1 hmem1 with ⟨ms1, hms1, -⟩
  have hms2 : mapGet s2.boardClients B =
      some (setAdd ((mapGet (roomLeaveTruthy s1.boardClients (some B) client.id) B).getD [])
        client.id) := by
    rw [hbc]
    exact mapGet_roomJoin_self _ B client.id
  refine ⟨hmemEq, ?_, ?_⟩
  · rw [hms1, hms2]
    have hperm : List.Perm
        (setAdd ((mapGet (roomLeaveTruthy s1.boardClients (some B) client.id) B).getD []) client.id)
        ms1 := by
      refine (List.perm_ext_iff_of_nodup
        (hWF2.bdWF.memNodup B _ hms2) (hWF1.bdWF.memNodup B ms1 hms1)).2 ?_
      intro a
      have hx2 := (memberOf_get s2.boardClients B a _ hms2).symm
      have hx1 := memberOf_get s1.boardClients B a ms1 hms1
      rw [hx2, ← hx1, hmemEq a]
    show some ((setAdd ((mapGet (roomLeaveTruthy s1.boardClients (some B) client.id) B).getD [])
      client.id).length) = some ms1.length
    rw [hperm.length_eq]
  · intro x hx hmem hopen
    rw [hsnd]
    have hms2' : mapGet (handleJoinBoard s1 { client with boardId := some B } B).1.boardClients B =
        some (setAdd ((mapGet (roomLeaveTruthy s1.boardClients (some B) client.id) B).getD [])
          client.id) := by
      rw [← hs2eq]
      exact hms2
    rw [handleJoinBoard_snd_eq s1 _ B _ hms2']
    refine List.mem_append_left _ ?_
    rw [mem_broadcastToList]
    refine ⟨rfl, ?_, ?_, ?_⟩
    · have := hmemEq x
      rw [hmem] at this
      have h5 := (memberOf_get s2.boardClients B x _ hms2).1 this
      exact h5
    · intro hcontra
      exact hx (Option.some.inj hcontra)
    · rw [← hs2eq]
      show isOpen s2.clients x = true
      rw [hs2eq, handleJoinBoard_fst]
      show isOpen (replaceClient s1.clients { client with boardId := some B }) x = true
      rw [isOpen_replaceClient_ne s1.clients { client with boardId := some B } x hx]
      rw [hs1eq, handleJoinBoard_fst]
      show isOpen (replaceClient s.clients { client with boardId := some B }) x = true
      rw [isOpen_replaceClient_ne s.clients { client with boardId := some B } x hx]
      exact hopen

/-- Witness for C3's amended theorem: "b" is already in board "b1"; "a"
joins twice; the second join's output still notifies "b". -/
theorem double_join_board_membership_idempotent_witness :
    ("b", OutMsg.user_joined_board none "b1") ∈
      (step (step (run [InEvent.connect "a", InEvent.connect "b",
          InEvent.message "b" (InMsg.join_board "b1")]) 0
          (InEvent.message "a" (InMsg.join_board "b1"))).1 0
          (InEvent.message "a" (InMsg.join_board "b1"))).2 :=
  (double_join_board_membership_idempotent
    (run [InEvent.connect "a", InEvent.connect "b",
      InEvent.message "b" (InMsg.join_board "b1")])
    (Reachable.next 0 _ (Reachable.next 0 _ (Reachable.next 0 _ Reachable.init
      (by decide)) (by decide)) (by decide))
    { id := "a", readyState := true, userId := none, workspaceId := none, boardId := none }
    (by decide) "b1" 0 0).2.2 "b" (by decide) (by decide) (by decide)

/-- C4: the claim that `card_moved` and `card_created` are delivered to
every member of the board whose transport is open — the sender included —
is FALSE of the code when the board id is the falsy empty string: after
`join_board("")` the connection is a registered member of board `""` with
an open transport, yet its `card_moved` produces no deliveries at all (not
even to itself), because `if (!client.boardId) return` treats the stored
board id `""` as falsy and returns before broadcasting; `card_created`,
`user_typing` and `cursor_move` are silenced the same way. -/
theorem board_broadcast_sender_rules_fails :
    Reachable (run [InEvent.connect "a",
      InEvent.message "a" (InMsg.join_board "")]) ∧
    memberOf (run [InEvent.connect "a",
      InEvent.message "a" (InMsg.join_board "")]).boardClients "" "a" = true ∧
    findClient (run [InEvent.connect "a",
      InEvent.message "a" (InMsg.join_board "")]).clients "a" =
      some { id := "a", readyState := true, userId := none,
             workspaceId := none, boardId := some "" } ∧
    isOpen (run [InEvent.connect "a",
      InEvent.message "a" (InMsg.join_board "")]).clients "a" = true ∧
    step (run [InEvent.connect "a", InEvent.message "a" (InMsg.join_board "")])
      5 (InEvent.message "a" (InMsg.card_moved "p")) =
      (run [InEvent.connect "a", InEvent.message "a" (InMsg.join_board "")], []) ∧
    step (run [InEvent.connect "a", InEvent.message "a" (InMsg.join_board "")])
      5 (InEvent.message "a" (InMsg.card_created "p")) =
      (run [InEvent.connect "a", InEvent.message "a" (InMsg.join_board "")], []) := by
  refine ⟨?_, by decide, by decide, by decide, by decide, by decide⟩
  show Reachable (step (step initState 0 (InEvent.connect "a")).1 0
    (InEvent.message "a" (InMsg.join_board ""))).1
  exact Reachable.next 0 _ (Reachable.next 0 _ Reachable.init (by decide)) (by decide)

/-- C9 counterexample: "a" is a current member of workspace "w1" but its
transport has left OPEN; when "b" joins, the relay's only output is the
count reply to "b" — "a", an other current member, is not notified,
refuting the claim's "notifies every other current member" as stated. -/
theorem join_notification_closed_member_cex :
    (step (run [InEvent.connect "a", InEvent.connect "b",
        InEvent.message "a" (InMsg.join_workspace "w1"),
        InEvent.socketClosed "a"]) 0
        (InEvent.message "b" (InMsg.join_workspace "w1"))).2 =
      [("b", OutMsg.workspace_users 2)] := by decide

/-- C9 amended: after a join of room R (either flavor) the relay notifies
every other current member of R whose transport is open with a message
carrying the joiner's user identifier and R, delivers nothing to other
members whose transport is not open, and replies to the joining connection
only with the room's current member count. -/
theorem join_notification_and_count (s : ServerState) (h : Reachable s)
    (client : Client) (hc : client ∈ s.clients) (R : String) (now : Nat) :
    (∀ ms2, mapGet (step s now (InEvent.message client.id
        (InMsg.join_workspace R))).1.workspaceClients R = some ms2 →
      ((client.id, OutMsg.workspace_users ms2.length) ∈
        (step s now (InEvent.message client.id (InMsg.join_workspace R))).2 ∧
       (∀ msg, (client.id, msg) ∈
          (step s now (InEvent.message client.id (InMsg.join_workspace R))).2 →
          msg = OutMsg.workspace_users ms2.length) ∧
       (∀ x, x ≠ client.id → x ∈ ms2 → isOpen s.clients x = true →
          (x, OutMsg.user_joined client.userId R) ∈
            (step s now (InEvent.message client.id (InMsg.join_workspace R))).2) ∧
       (∀ x msg, (x, msg) ∈
          (step s now (InEvent.message client.id (InMsg.join_workspace R))).2 →
          x ≠ client.id →
          msg = OutMsg.user_joined client.userId R ∧ x ∈ ms2 ∧
            isOpen s.clients x = true))) ∧
    (∀ ms2, mapGet (step s now (InEvent.message client.id
        (InMsg.join_board R))).1.boardClients R = some ms2 →
      ((client.id, OutMsg.board_users ms2.length) ∈
        (step s now (InEvent.message client.id (InMsg.join_board R))).2 ∧
       (∀ msg, (client.id, msg) ∈
          (step s now (InEvent.message client.id (InMsg.join_board R))).2 →
          msg = OutMsg.board_users ms2.length) ∧
       (∀ x, x ≠ client.id → x ∈ ms2 → isOpen s.clients x = true →
          (x, OutMsg.user_joined_board client.userId R) ∈
            (step s now (InEvent.message client.id (InMsg.join_board R))).2) ∧
       (∀ x msg, (x, msg) ∈
          (step s now (InEvent.message client.id (InMsg.join_board R))).2 →
          x ≠ client.id →
          msg = OutMsg.user_joined_board client.userId R ∧ x ∈ ms2 ∧
            isOpen s.clients x = true))) := by
  have hWF := reachable_WF h
  have hfc : findClient s.clients client.id = some client :=
    findClient_of_mem_nodup s.clients client hWF.idsNodup hc
  constructor
  · intro ms2 hms2
    have hms2' : mapGet (handleJoinWorkspace s client R).1.workspaceClients R = some ms2 := by
      rw [step_message_eq s client.id client hfc now] at hms2
      exact hms2
    have hsnd : (step s now (InEvent.message client.id (InMsg.join_workspace R))).2 =
        broadcastToList (handleJoinWorkspace s client R).1.clients ms2
          (OutMsg.user_joined client.userId R) (some client.id) ++
        [(client.id, OutMsg.workspace_users ms2.length)] := by
      rw [step_message_eq s client.id client hfc now]
      exact handleJoinWorkspace_snd_eq s client R ms2 hms2'
    have hopen_eq : ∀ x, x ≠ client.id →
        isOpen (handleJoinWorkspace s client R).1.clients x = isOpen s.clients x := by
      intro x hx
      rw [handleJoinWorkspace_fst]
      show isOpen (replaceClient s.clients { client with workspaceId := some R }) x = _
      exact isOpen_replaceClient_ne s.clients { client with workspaceId := some R } x hx
    refine ⟨?_, ?_, ?_, ?_⟩
    · rw [hsnd]
      exact List.mem_append_right _ (List.mem_singleton.2 rfl)
    · intro msg hmem
      rw [hsnd] at hmem
      rcases List.mem_append.1 hmem with hmem' | hmem'
      · rw [mem_broadcastToList] at hmem'
        exact absurd rfl hmem'.2.2.1
      · rw [List.mem_singleton] at hmem'
        exact congrArg Prod.snd hmem' 
    · intro x hx hxm hox
      rw [hsnd]
      refine List.mem_append_left _ ?_
      rw [mem_broadcastToList]
      refine ⟨rfl, hxm, fun hcg => hx (Option.some.inj hcg), ?_⟩
      rw [hopen_eq x hx]
      exact hox
    · intro x msg hmem hx
      rw [hsnd] at hmem
      rcases List.mem_append.1 hmem with hmem' | hmem'
      · rw [mem_broadcastToList] at hmem'
        refine ⟨hmem'.1, hmem'.2.1, ?_⟩
        rw [← hopen_eq x hx]
        exact hmem'.2.2.2
      · rw [List.mem_singleton] at hmem'
        injection hmem' with h1 _
        exact absurd h1 hx
  · intro ms2 hms2
    have hms2' : mapGet (handleJoinBoard s client R).1.boardClients R = some ms2 := by
      rw [step_message_eq s client.id client hfc now] at hms2
      exact hms2
    have hsnd : (step s now (InEvent.message client.id (InMsg.join_board R))).2 =
        broadcastToList (handleJoinBoard s client R).1.clients ms2
          (OutMsg.user_joined_board client.userId R) (some client.id) ++
        [(client.id, OutMsg.board_users ms2.length)] := by
      rw [step_message_eq s client.id client hfc now]
      exact handleJoinBoard_snd_eq s client R ms2 hms2'
    have hopen_eq : ∀ x, x ≠ client.id →
        isOpen (handleJoinBoard s client R).1.clients x = isOpen s.clients x := by
      intro x hx
      rw [handleJoinBoard_fst]
      show isOpen (replaceClient s.clients { client with boardId := some R }) x = _
      exact isOpen_replaceClient_ne s.clients { client with boardId := some R } x hx
    refine ⟨?_, ?_, ?_, ?_⟩
    · rw [hsnd]
      exact List.mem_append_right _ (List.mem_singleton.2 rfl)
    · intro msg hmem
      rw [hsnd] at hmem
      rcases List.mem_append.1 hmem with hmem' | hmem'
      · rw [mem_broadcastToList] at hmem'
        exact absurd rfl hmem'.2.2.1
      · rw [List.mem_singleton] at hmem'
        exact congrArg Prod.snd hmem' 
    · intro x hx hxm hox
      rw [hsnd]
      refine List.mem_append_left _ ?_
      rw [mem_broadcastToList]
      refine ⟨rfl, hxm, fun hcg => hx (Option.some.inj hcg), ?_⟩
      rw [hopen_eq x hx]
      exact hox
    · intro x msg hmem hx
      rw [hsnd] at hmem
      rcases List.mem_append.1 hmem with hmem' | hmem'
      · rw [mem_broadcastToList] at hmem'
        refine ⟨hmem'.1, hmem'.2.1, ?_⟩
        rw [← hopen_eq x hx]
        exact hmem'.2.2.2
      · rw [List.mem_singleton] at hmem'
        injection hmem' with h1 _
        exact absurd h1 hx

/-- Witness for C9's amended theorem, on the spec's own scenario: "a" is
alone in workspace "w1"; when "b" joins, "a" (open transport) receives
`user_joined` carrying "b"'s user identifier (unset) and "w1". -/
theorem join_notification_and_count_witness :
    ("a", OutMsg.user_joined none "w1") ∈
      (step (run [InEvent.connect "a", InEvent.connect "b",
          InEvent.message "a" (InMsg.join_workspace "w1")]) 0
          (InEvent.message "b" (InMsg.join_workspace "w1"))).2 :=
  (((join_notification_and_count
    (run [InEvent.connect "a", InEvent.connect "b",
      InEvent.message "a" (InMsg.join_workspace "w1")])
    (Reachable.next 0 _ (Reachable.next 0 _ (Reachable.next 0 _ Reachable.init
      (by decide)) (by decide)) (by decide))
    { id := "b", readyState := true, userId := none,
      workspaceId := none, boardId := none }
    (by decide) "w1" 0).1 ["a", "b"] (by decide)).2.2.1) "a" (by decide)
    (by decide) (by decide)

/-! ### Departure-notification characterization of `handleDisconnect` -/

theorem handleDisconnect_snd_eq (s : ServerState) (client : Client) :
    (handleDisconnect s client).2 =
      departureMsgs s.clients s.workspaceClients client.workspaceId client.id
        (OutMsg.user_left client.userId) ++
      departureMsgs s.clients s.boardClients client.boardId client.id
        (OutMsg.user_left_board client.userId) := by
  rw [handleDisconnect_snd]
  rfl

theorem departureMsgs_falsy (clients : List Client) (m : RoomMap)
    (cid : String) (mk : String → OutMsg) :
    departureMsgs clients m (some "") cid mk = [] := by
  show (if ("" : String) = "" then []
    else (match mapGet m "" with
      | some ms =>
        if (ms.erase cid).length = 0 then []
        else broadcastToList clients (ms.erase cid) (mk "") none
      | none => [])) = []
  rw [if_pos rfl]

theorem departureMsgs_empty (clients : List Client) (m : RoomMap)
    (rid cid : String) (mk : String → OutMsg) (ms : List String)
    (hr : rid ≠ "") (hms : mapGet m rid = some ms) (hl : ms.erase cid = []) :
    departureMsgs clients m (some rid) cid mk = [] := by
  show (if rid = "" then []
    else (match mapGet m rid with
      | some ms =>
        if (ms.erase cid).length = 0 then []
        else broadcastToList clients (ms.erase cid) (mk rid) none
      | none => [])) = []
  rw [if_neg hr, hms]
  show (if (ms.erase cid).length = 0 then []
    else broadcastToList clients (ms.erase cid) (mk rid) none) = []
  rw [if_pos (by rw [hl]; rfl)]

theorem departureMsgs_nonempty (clients : List Client) (m : RoomMap)
    (rid cid : String) (mk : String → OutMsg) (ms : List String)
    (hr : rid ≠ "") (hms : mapGet m rid = some ms) (hl : ms.erase cid ≠ []) :
    departureMsgs clients m (some rid) cid mk =
      broadcastToList clients (ms.erase cid) (mk rid) none := by
  show (if rid = "" then []
    else (match mapGet m rid with
      | some ms =>
        if (ms.erase cid).length = 0 then []
        else broadcastToList clients (ms.erase cid) (mk rid) none
      | none => [])) = _
  rw [if_neg hr, hms]
  show (if (ms.erase cid).length = 0 then []
    else broadcastToList clients (ms.erase cid) (mk rid) none) = _
  rw [if_neg (fun h0 => hl (List.length_eq_zero.1 h0))]

theorem mem_departureMsgs (clients : List Client) (m : RoomMap)
    (o : Option String) (cid : String) (mk : String → OutMsg)
    (x : String) (msg : OutMsg) :
    (x, msg) ∈ departureMsgs clients m o cid mk ↔
      ∃ rid ms, o = some rid ∧ rid ≠ "" ∧ mapGet m rid = some ms ∧ msg = mk rid ∧
        x ∈ ms.erase cid ∧ isOpen clients x = true := by
  rcases o with _ | rid
  · constructor
    · intro hmem
      cases hmem
    · rintro ⟨rid, ms, hcontra, -⟩
      cases hcontra
  · by_cases hr0 : rid = ""
    · subst hr0
      rw [departureMsgs_falsy]
      constructor
      · intro hmem
        cases hmem
      · rintro ⟨rid', ms', hr, hr', -⟩
        injection hr with hr
        exact absurd hr.symm hr'
    · show (x, msg) ∈ (if rid = "" then []
        else (match mapGet m rid with
          | some ms =>
            if (ms.erase cid).length = 0 then []
            else broadcastToList clients (ms.erase cid) (mk rid) none
          | none => [])) ↔ _
      rw [if_neg hr0]
      rcases hg : mapGet m rid with _ | ms
      · constructor
        · intro hmem
          cases hmem
        · rintro ⟨rid', ms, hr, -, hms, -⟩
          injection hr with hr
          subst hr
          rw [hg] at hms
          cases hms
      · show (x, msg) ∈ (if (ms.erase cid).length = 0 then []
          else broadcastToList clients (ms.erase cid) (mk rid) none) ↔ _
        by_cases hl : (ms.erase cid).length = 0
        · rw [if_pos hl]
          constructor
          · intro hmem
            cases hmem
          · rintro ⟨rid', ms', hr, -, hms', -, hx, -⟩
            injection hr with hr
            subst hr
            rw [hg] at hms'
            injection hms' with hms'
            subst hms'
            rw [List.length_eq_zero.1 hl] at hx
            cases hx
        · rw [if_neg hl, mem_broadcastToList]
          constructor
          · rintro ⟨hmsg, hx, -, ho⟩
            exact ⟨rid, ms, rfl, hr0, hg, hmsg, hx, ho⟩
          · rintro ⟨rid', ms', hr, -, hms', hmsg, hx, ho⟩
            injection hr with hr
            subst hr
            rw [hg] at hms'
            injection hms' with hms'
            subst hms'
            exact ⟨hmsg, hx, by simp, ho⟩

theorem count_departureMsgs_nonempty (clients : List Client) (m : RoomMap)
    (rid cid : String) (mk : String → OutMsg) (ms : List String)
    (hnd : ms.Nodup) (hr : rid ≠ "") (hms : mapGet m rid = some ms)
    (hl : ms.erase cid ≠ []) (x : String) :
    List.count (x, mk rid) (departureMsgs clients m (some rid) cid mk) =
      if x ∈ ms.erase cid ∧ isOpen clients x = true then 1 else 0 := by
  rw [departureMsgs_nonempty clients m rid cid mk ms hr hms hl]
  exact count_broadcastToList clients (ms.erase cid) (mk rid) x (hnd.erase cid)

/-- C6 counterexample: "a" and "b" share workspace "w"; "b"'s transport
has left OPEN; when "a" disconnects, "b" is the remaining member of "w"
(the room survives with member set {"b"}) yet the relay delivers no
`user_left` message at all, refuting the claim that exactly the remaining
members each receive one `user_left`. -/
theorem disconnect_closed_member_unnotified_cex :
    mapGet (step (run [InEvent.connect "a", InEvent.connect "b",
        InEvent.message "a" (InMsg.join_workspace "w"),
        InEvent.message "b" (InMsg.join_workspace "w"),
        InEvent.socketClosed "b"]) 0 (InEvent.close "a")).1.workspaceClients
      "w" = some ["b"] ∧
    (step (run [InEvent.connect "a", InEvent.connect "b",
        InEvent.message "a" (InMsg.join_workspace "w"),
        InEvent.message "b" (InMsg.join_workspace "w"),
        InEvent.socketClosed "b"]) 0 (InEvent.close "a")).2 = [] := by decide

/-- C6 amended: on disconnect the connection is removed from the registry
and from every room with a truthy (non-empty) id of both flavors.  A
membership in the falsy room `""` is never removed — the guards
`if (client.workspaceId)` / `if (client.boardId)` treat `""` as falsy — so
when the connection's room field of a flavor is `""` that whole flavor is a
silent no-op: the index is untouched and no departure message of that
flavor is sent.  Per flavor, for a room R ≠ "" the connection belonged to:
if it was the last member, R is removed from the index and no departure
message of that flavor is sent to anyone; otherwise each remaining member
whose transport is open receives exactly one `user_left` (workspace) /
`user_left_board` (board) message carrying the departing connection's user
identifier and R — remaining members whose transport is not open are
skipped per the broadcast rule, and nobody outside R's remaining members
receives a departure message. -/
theorem disconnect_notifications (s : ServerState) (h : Reachable s)
    (client : Client) (hc : client ∈ s.clients) (now : Nat) :
    findClient (step s now (InEvent.close client.id)).1.clients client.id = none ∧
    (∀ W, W ≠ "" → memberOf (step s now (InEvent.close client.id)).1.workspaceClients
      W client.id = false) ∧
    (∀ B, B ≠ "" → memberOf (step s now (InEvent.close client.id)).1.boardClients
      B client.id = false) ∧
    (client.workspaceId = some "" →
      (step s now (InEvent.close client.id)).1.workspaceClients = s.workspaceClients ∧
      (∀ x u W', (x, OutMsg.user_left u W') ∉
        (step s now (InEvent.close client.id)).2)) ∧
    (client.boardId = some "" →
      (step s now (InEvent.close client.id)).1.boardClients = s.boardClients ∧
      (∀ x u B', (x, OutMsg.user_left_board u B') ∉
        (step s now (InEvent.close client.id)).2)) ∧
    (∀ W ms, W ≠ "" → client.workspaceId = some W →
      mapGet s.workspaceClients W = some ms →
      (ms.erase client.id = [] →
        mapGet (step s now (InEvent.close client.id)).1.workspaceClients W = none ∧
        (∀ x u W', (x, OutMsg.user_left u W') ∉
          (step s now (InEvent.close client.id)).2)) ∧
      (ms.erase client.id ≠ [] →
        (∀ x, List.count (x, OutMsg.user_left client.userId W)
            (step s now (InEvent.close client.id)).2 =
          if x ∈ ms.erase client.id ∧ isOpen s.clients x = true then 1 else 0) ∧
        (∀ x u W', (x, OutMsg.user_left u W') ∈
            (step s now (InEvent.close client.id)).2 →
          u = client.userId ∧ W' = W ∧ x ∈ ms.erase client.id ∧
            isOpen s.clients x = true))) ∧
    (∀ B ms, B ≠ "" → client.boardId = some B →
      mapGet s.boardClients B = some ms →
      (ms.erase client.id = [] →
        mapGet (step s now (InEvent.close client.id)).1.boardClients B = none ∧
        (∀ x u B', (x, OutMsg.user_left_board u B') ∉
          (step s now (InEvent.close client.id)).2)) ∧
      (ms.erase client.id ≠ [] →
        (∀ x, List.count (x, OutMsg.user_left_board client.userId B)
            (step s now (InEvent.close client.id)).2 =
          if x ∈ ms.erase client.id ∧ isOpen s.clients x = true then 1 else 0) ∧
        (∀ x u B', (x, OutMsg.user_left_board u B') ∈
            (step s now (InEvent.close client.id)).2 →
          u = client.userId ∧ B' = B ∧ x ∈ ms.erase client.id ∧
            isOpen s.clients x = true))) := by
  have hWF := reachable_WF h
  have hfc : findClient s.clients client.id = some client :=
    findClient_of_mem_nodup s.clients client hWF.idsNodup hc
  rw [step_close_eq s client.id client hfc now]
  refine ⟨?_, ?_, ?_, ?_, ?_, ?_, ?_⟩
  · rw [handleDisconnect_fst]
    exact findClient_filter_self s.clients client.id
  · intro W hW
    rw [handleDisconnect_fst]
    exact leaveTruthy_not_member hWF.wsWF hc W hW
  · intro B hB
    rw [handleDisconnect_fst]
    exact leaveTruthy_not_member hWF.bdWF hc B hB
  · intro hW0
    constructor
    · rw [handleDisconnect_fst]
      show roomLeaveTruthy s.workspaceClients client.workspaceId client.id =
        s.workspaceClients
      rw [hW0, roomLeaveTruthy_falsy]
    · intro x u W' hmem
      rw [handleDisconnect_snd_eq, hW0] at hmem
      rcases List.mem_append.1 hmem with hm | hm
      · rw [departureMsgs_falsy] at hm
        cases hm
      · rcases (mem_departureMsgs s.clients s.boardClients client.boardId client.id
          _ x _).1 hm with ⟨rid, ms', -, -, -, hmsg, -⟩
        cases hmsg
  · intro hB0
    constructor
    · rw [handleDisconnect_fst]
      show roomLeaveTruthy s.boardClients client.boardId client.id = s.boardClients
      rw [hB0, roomLeaveTruthy_falsy]
    · intro x u B' hmem
      rw [handleDisconnect_snd_eq, hB0] at hmem
      rcases List.mem_append.1 hmem with hm | hm
      · rcases (mem_departureMsgs s.clients s.workspaceClients client.workspaceId
          client.id _ x _).1 hm with ⟨rid, ms', -, -, -, hmsg, -⟩
        cases hmsg
      · rw [departureMsgs_falsy] at hm
        cases hm
  · intro W ms hW0 hW hms
    constructor
    · intro hempty
      constructor
      · rw [handleDisconnect_fst]
        show mapGet (roomLeaveTruthy s.workspaceClients client.workspaceId client.id)
          W = none
        rw [hW, roomLeaveTruthy_truthy s.workspaceClients W client.id hW0]
        rw [mapGet_roomLeave_self_some s.workspaceClients W client.id ms hms,
          if_pos (by rw [hempty]; rfl)]
      · intro x u W' hmem
        rw [handleDisconnect_snd_eq, hW] at hmem
        rcases List.mem_append.1 hmem with hm | hm
        · rw [departureMsgs_empty s.clients s.workspaceClients W client.id _ ms hW0
            hms hempty] at hm
          cases hm
        · rcases (mem_departureMsgs s.clients s.boardClients client.boardId client.id
            _ x _).1 hm with ⟨rid, ms', -, -, -, hmsg, -⟩
          cases hmsg
    · intro hne
      constructor
      · intro x
        rw [handleDisconnect_snd_eq, hW, List.count_append]
        rw [count_departureMsgs_nonempty s.clients s.workspaceClients W client.id _
          ms (hWF.wsWF.memNodup W ms hms) hW0 hms hne x]
        have hz : List.count (x, OutMsg.user_left client.userId W)
            (departureMsgs s.clients s.boardClients client.boardId client.id
              (OutMsg.user_left_board client.userId)) = 0 := by
          rw [List.count_eq_zero]
          intro hm
          rcases (mem_departureMsgs s.clients s.boardClients client.boardId client.id
            _ x _).1 hm with ⟨rid, ms', -, -, -, hmsg, -⟩
          cases hmsg
        rw [hz, Nat.add_zero]
      · intro x u W' hmem
        rw [handleDisconnect_snd_eq, hW] at hmem
        rcases List.mem_append.1 hmem with hm | hm
        · rcases (mem_departureMsgs s.clients s.workspaceClients (some W) client.id
            _ x _).1 hm with ⟨rid, ms', hrid, -, hms', hmsg, hx, ho⟩
          injection hrid with hrid
          subst hrid
          rw [hms] at hms'
          injection hms' with hms'
          subst hms'
          injection hmsg with h1 h2
          exact ⟨h1, h2, hx, ho⟩
        · rcases (mem_departureMsgs s.clients s.boardClients client.boardId client.id
            _ x _).1 hm with ⟨rid, ms', -, -, -, hmsg, -⟩
          cases hmsg
  · intro B ms hB0 hB hms
    constructor
    · intro hempty
      constructor
      · rw [handleDisconnect_fst]
        show mapGet (roomLeaveTruthy s.boardClients client.boardId client.id) B = none
        rw [hB, roomLeaveTruthy_truthy s.boardClients B client.id hB0]
        rw [mapGet_roomLeave_self_some s.boardClients B client.id ms hms,
          if_pos (by rw [hempty]; rfl)]
      · intro x u B' hmem
        rw [handleDisconnect_snd_eq, hB] at hmem
        rcases List.mem_append.1 hmem with hm | hm
        · rcases (mem_departureMsgs s.clients s.workspaceClients client.workspaceId
            client.id _ x _).1 hm with ⟨rid, ms', -, -, -, hmsg, -⟩
          cases hmsg
        · rw [departureMsgs_empty s.clients s.boardClients B client.id _ ms hB0
            hms hempty] at hm
          cases hm
    · intro hne
      constructor
      · intro x
        rw [handleDisconnect_snd_eq, hB, List.count_append]
        rw [count_departureMsgs_nonempty s.clients s.boardClients B client.id _
          ms (hWF.bdWF.memNodup B ms hms) hB0 hms hne x]
        have hz : List.count (x, OutMsg.user_left_board client.userId B)
            (departureMsgs s.clients s.workspaceClients client.workspaceId client.id
              (OutMsg.user_left client.userId)) = 0 := by
          rw [List.count_eq_zero]
          intro hm
          rcases (mem_departureMsgs s.clients s.workspaceClients client.workspaceId
            client.id _ x _).1 hm with ⟨rid, ms', -, -, -, hmsg, -⟩
          cases hmsg
        rw [hz, Nat.zero_add]
      · intro x u B' hmem
        rw [handleDisconnect_snd_eq, hB] at hmem
        rcases List.mem_append.1 hmem with hm | hm
        · rcases (mem_departureMsgs s.clients s.workspaceClients client.workspaceId
            client.id _ x _).1 hm with ⟨rid, ms', -, -, -, hmsg, -⟩
          cases hmsg
        · rcases (mem_departureMsgs s.clients s.boardClients (some B) client.id
            _ x _).1 hm with ⟨rid, ms', hrid, -, hms', hmsg, hx, ho⟩
          injection hrid with hrid
          subst hrid
          rw [hms] at hms'
          injection hms' with hms'
          subst hms'
          injection hmsg with h1 h2
          exact ⟨h1, h2, hx, ho⟩

/-- Witness for C6's amended theorem: after "a" and "b" join workspace "w",
"a"'s disconnect removes "a" from the registry. -/
theorem disconnect_notifications_witness :
    findClient (step (run [InEvent.connect "a", InEvent.connect "b",
        InEvent.message "a" (InMsg.join_workspace "w"),
        InEvent.message "b" (InMsg.join_workspace "w")]) 0
        (InEvent.close "a")).1.clients "a" = none :=
  (disconnect_notifications
    (run [InEvent.connect "a", InEvent.connect "b",
      InEvent.message "a" (InMsg.join_workspace "w"),
      InEvent.message "b" (InMsg.join_workspace "w")])
    (Reachable.next 0 _ (Reachable.next 0 _ (Reachable.next 0 _ (Reachable.next 0 _
      Reachable.init (by decide)) (by decide)) (by decide)) (by decide))
    { id := "a", readyState := true, userId := none,
      workspaceId := some "w", boardId := none }
    (by decide) 0).1

/-- C8 counterexample: "a" and "b" share workspace "w2"; "b"'s transport
has left OPEN before "a"'s socket errors.  The error event changes nothing
(the handler only logs) and the ensuing close removes "a", leaving "b" the
remaining member of "w2" — yet the relay sends nothing at all, so the
remaining member "b" is NOT notified of the departure, refuting the claim
that on the error-teardown path the remaining members of the errored
connection's rooms are notified. -/
theorem transport_error_closed_member_cex :
    step (run [InEvent.connect "a", InEvent.connect "b",
        InEvent.message "a" (InMsg.join_workspace "w2"),
        InEvent.message "b" (InMsg.join_workspace "w2"),
        InEvent.socketClosed "b"]) 0 (InEvent.error "a") =
      (run [InEvent.connect "a", InEvent.connect "b",
        InEvent.message "a" (InMsg.join_workspace "w2"),
        InEvent.message "b" (InMsg.join_workspace "w2"),
        InEvent.socketClosed "b"], []) ∧
    mapGet (step (run [InEvent.connect "a", InEvent.connect "b",
        InEvent.message "a" (InMsg.join_workspace "w2"),
        InEvent.message "b" (InMsg.join_workspace "w2"),
        InEvent.socketClosed "b"]) 0
        (InEvent.close "a")).1.workspaceClients "w2" = some ["b"] ∧
    (step (run [InEvent.connect "a", InEvent.connect "b",
        InEvent.message "a" (InMsg.join_workspace "w2"),
        InEvent.message "b" (InMsg.join_workspace "w2"),
        InEvent.socketClosed "b"]) 0 (InEvent.close "a")).2 = [] := by decide

/-- C8 amended: the relay's `error` handler only logs — the event itself
changes no state and sends nothing — and the teardown happens via the
disconnect path when the errored socket's `close` event fires (a `ws`
transport always emits `close` after `error`): the connection is removed
from the registry and from every room with a truthy (non-empty) id of both
flavors, and every remaining member — whose transport is open — of a
truthy-id room it belonged to is notified of the departure (members whose
transport is not open, and the falsy room `""`, are skipped). -/
theorem transport_error_teardown (s : ServerState) (h : Reachable s)
    (client : Client) (hc : client ∈ s.clients) (now now' : Nat) :
    step s now (InEvent.error client.id) = (s, []) ∧
    step s now' (InEvent.close client.id) = handleDisconnect s client ∧
    findClient (step s now' (InEvent.close client.id)).1.clients client.id = none ∧
    (∀ W, W ≠ "" → memberOf (step s now' (InEvent.close client.id)).1.workspaceClients
      W client.id = false) ∧
    (∀ B, B ≠ "" → memberOf (step s now' (InEvent.close client.id)).1.boardClients
      B client.id = false) ∧
    (∀ W ms, W ≠ "" → client.workspaceId = some W →
      mapGet s.workspaceClients W = some ms →
      ∀ x, x ∈ ms.erase client.id → isOpen s.clients x = true →
        (x, OutMsg.user_left client.userId W) ∈
          (step s now' (InEvent.close client.id)).2) ∧
    (∀ B ms, B ≠ "" → client.boardId = some B →
      mapGet s.boardClients B = some ms →
      ∀ x, x ∈ ms.erase client.id → isOpen s.clients x = true →
        (x, OutMsg.user_left_board client.userId B) ∈
          (step s now' (InEvent.close client.id)).2) := by
  have hWF := reachable_WF h
  have hfc : findClient s.clients client.id = some client :=
    findClient_of_mem_nodup s.clients client hWF.idsNodup hc
  have hstep := step_close_eq s client.id client hfc now'
  rw [hstep]
  refine ⟨rfl, rfl, ?_, ?_, ?_, ?_, ?_⟩
  · rw [handleDisconnect_fst]
    exact findClient_filter_self s.clients client.id
  · intro W hW
    rw [handleDisconnect_fst]
    exact leaveTruthy_not_member hWF.wsWF hc W hW
  · intro B hB
    rw [handleDisconnect_fst]
    exact leaveTruthy_not_member hWF.bdWF hc B hB
  · intro W ms hW0 hW hms x hx ho
    rw [handleDisconnect_snd_eq, hW]
    refine List.mem_append_left _ ?_
    exact (mem_departureMsgs s.clients s.workspaceClients (some W) client.id _ x _).2
      ⟨W, ms, rfl, hW0, hms, rfl, hx, ho⟩
  · intro B ms hB0 hB hms x hx ho
    rw [handleDisconnect_snd_eq, hB]
    refine List.mem_append_right _ ?_
    exact (mem_departureMsgs s.clients s.boardClients (some B) client.id _ x _).2
      ⟨B, ms, rfl, hB0, hms, rfl, hx, ho⟩

/-- Witness for C8's amended theorem: the error event on connection "a"
leaves the relay's state untouched (teardown then happens via the ensuing
close). -/
theorem transport_error_teardown_witness :
    step (run [InEvent.connect "a", InEvent.connect "b",
        InEvent.message "a" (InMsg.join_workspace "w"),
        InEvent.message "b" (InMsg.join_workspace "w")]) 0
        (InEvent.error "a") =
      (run [InEvent.connect "a", InEvent.connect "b",
        InEvent.message "a" (InMsg.join_workspace "w"),
        InEvent.message "b" (InMsg.join_workspace "w")], []) :=
  (transport_error_teardown
    (run [InEvent.connect "a", InEvent.connect "b",
      InEvent.message "a" (InMsg.join_workspace "w"),
      InEvent.message "b" (InMsg.join_workspace "w")])
    (Reachable.next 0 _ (Reachable.next 0 _ (Reachable.next 0 _ (Reachable.next 0 _
      Reachable.init (by decide)) (by decide)) (by decide)) (by decide))
    { id := "a", readyState := true, userId := none,
      workspaceId := some "w", boardId := none }
    (by decide) 0 0).1

/-- C10: no handler or lifecycle transition ever assigns `userId` — in
every reachable state every registered connection's `userId` is unset, and
consequently every user-identity field the relay serializes into an
outbound message (`movedBy`, `createdBy`, `userId` of the presence and
typing/cursor messages) carries no value. -/
theorem userId_never_assigned (s : ServerState) (h : Reachable s) :
    (∀ c ∈ s.clients, c.userId = none) ∧
    (∀ now e x msg u, (x, msg) ∈ (step s now e).2 →
      msgUserId msg = some u → u = none) := by
  have hWF := reachable_WF h
  refine ⟨hWF.usersNone, ?_⟩
  intro now e x msg u hmem hmsg
  cases e with
  | connect cid =>
    replace hmem : (x, msg) ∈ [(cid, OutMsg.connected cid)] := hmem
    rw [List.mem_singleton, Prod.mk.injEq] at hmem
    rw [hmem.2] at hmsg
    replace hmsg : (none : Option (Option String)) = some u := hmsg
    cases hmsg
  | malformed cid =>
    replace hmem : (x, msg) ∈ ([] : List (String × OutMsg)) := hmem
    cases hmem
  | error cid =>
    replace hmem : (x, msg) ∈ ([] : List (String × OutMsg)) := hmem
    cases hmem
  | socketClosed cid =>
    replace hmem : (x, msg) ∈ ([] : List (String × OutMsg)) := hmem
    cases hmem
  | message cid m =>
    replace hmem : (x, msg) ∈ (match findClient s.clients cid with
      | some client => handleMessage s client now m
      | none => (s, [])).2 := hmem
    rcases hfc : findClient s.clients cid with _ | client
    · rw [hfc] at hmem
      replace hmem : (x, msg) ∈ ([] : List (String × OutMsg)) := hmem
      cases hmem
    · rw [hfc] at hmem
      obtain ⟨hcmem, -⟩ := findClient_mem _ _ _ hfc
      have husr : client.userId = none := hWF.usersNone client hcmem
      cases m with
      | join_workspace wid =>
        replace hmem : (x, msg) ∈ (handleJoinWorkspace s client wid).2 := hmem
        rw [handleJoinWorkspace_snd_eq s client wid _
          (handleJoinWorkspace_members s client wid)] at hmem
        rcases List.mem_append.1 hmem with hm | hm
        · rw [mem_broadcastToList] at hm
          rw [hm.1] at hmsg
          replace hmsg : some client.userId = some u := hmsg
          injection hmsg with hmsg
          rw [← hmsg, husr]
        · rw [List.mem_singleton, Prod.mk.injEq] at hm
          rw [hm.2] at hmsg
          replace hmsg : (none : Option (Option String)) = some u := hmsg
          cases hmsg
      | join_board bid =>
        replace hmem : (x, msg) ∈ (handleJoinBoard s client bid).2 := hmem
        rw [handleJoinBoard_snd_eq s client bid _
          (handleJoinBoard_members s client bid)] at hmem
        rcases List.mem_append.1 hmem with hm | hm
        · rw [mem_broadcastToList] at hm
          rw [hm.1] at hmsg
          replace hmsg : some client.userId = some u := hmsg
          injection hmsg with hmsg
          rw [← hmsg, husr]
        · rw [List.mem_singleton, Prod.mk.injEq] at hm
          rw [hm.2] at hmsg
          replace hmsg : (none : Option (Option String)) = some u := hmsg
          cases hmsg
      | card_moved p =>
        replace hmem : (x, msg) ∈ (handleCardMoved s client now p).2 := hmem
        rw [handleCardMoved_snd] at hmem
        rcases hb : client.boardId with _ | bid
        · rw [hb] at hmem
          replace hmem : (x, msg) ∈ ([] : List (String × OutMsg)) := hmem
          cases hmem
        · rw [hb] at hmem
          replace hmem : (x, msg) ∈ (if bid = "" then []
            else broadcastToBoard s bid
              (OutMsg.card_moved p client.userId now) none) := hmem
          by_cases hb0 : bid = ""
          · rw [if_pos hb0] at hmem
            cases hmem
          rw [if_neg hb0] at hmem
          unfold broadcastToBoard at hmem
          rcases hg : mapGet s.boardClients bid with _ | ms
          · rw [hg] at hmem
            replace hmem : (x, msg) ∈ ([] : List (String × OutMsg)) := hmem
            cases hmem
          · rw [hg] at hmem
            replace hmem : (x, msg) ∈ broadcastToList s.clients ms
              (OutMsg.card_moved p client.userId now) none := hmem
            rw [mem_broadcastToList] at hmem
            rw [hmem.1] at hmsg
            replace hmsg : some client.userId = some u := hmsg
            injection hmsg with hmsg
            rw [← hmsg, husr]
      | card_created p =>
        replace hmem : (x, msg) ∈ (handleCardCreated s client now p).2 := hmem
        rw [handleCardCreated_snd] at hmem
        rcases hb : client.boardId with _ | bid
        · rw [hb] at hmem
          replace hmem : (x, msg) ∈ ([] : List (String × OutMsg)) := hmem
          cases hmem
        · rw [hb] at hmem
          replace hmem : (x, msg) ∈ (if bid = "" then []
            else broadcastToBoard s bid
              (OutMsg.card_created p client.userId now) none) := hmem
          by_cases hb0 : bid = ""
          · rw [if_pos hb0] at hmem
            cases hmem
          rw [if_neg hb0] at hmem
          unfold broadcastToBoard at hmem
          rcases hg : mapGet s.boardClients bid with _ | ms
          · rw [hg] at hmem
            replace hmem : (x, msg) ∈ ([] : List (String × OutMsg)) := hmem
            cases hmem
          · rw [hg] at hmem
            replace hmem : (x, msg) ∈ broadcastToList s.clients ms
              (OutMsg.card_created p client.userId now) none := hmem
            rw [mem_broadcastToList] at hmem
            rw [hmem.1] at hmsg
            replace hmsg : some client.userId = some u := hmsg
            injection hmsg with hmsg
            rw [← hmsg, husr]
      | user_typing p =>
        replace hmem : (x, msg) ∈ (handleUserTyping s client p).2 := hmem
        rw [handleUserTyping_snd] at hmem
        rcases hb : client.boardId with _ | bid
        · rw [hb] at hmem
          replace hmem : (x, msg) ∈ ([] : List (String × OutMsg)) := hmem
          cases hmem
        · rw [hb] at hmem
          replace hmem : (x, msg) ∈ (if bid = "" then []
            else broadcastToBoard s bid
              (OutMsg.user_typing client.userId p) (some client.id)) := hmem
          by_cases hb0 : bid = ""
          · rw [if_pos hb0] at hmem
            cases hmem
          rw [if_neg hb0] at hmem
          unfold broadcastToBoard at hmem
          rcases hg : mapGet s.boardClients bid with _ | ms
          · rw [hg] at hmem
            replace hmem : (x, msg) ∈ ([] : List (String × OutMsg)) := hmem
            cases hmem
          · rw [hg] at hmem
            replace hmem : (x, msg) ∈ broadcastToList s.clients ms
              (OutMsg.user_typing client.userId p) (some client.id) := hmem
            rw [mem_broadcastToList] at hmem
            rw [hmem.1] at hmsg
            replace hmsg : some client.userId = some u := hmsg
            injection hmsg with hmsg
            rw [← hmsg, husr]
      | cursor_move p =>
        replace hmem : (x, msg) ∈ (handleCursorMove s client p).2 := hmem
        rw [handleCursorMove_snd] at hmem
        rcases hb : client.boardId with _ | bid
        · rw [hb] at hmem
          replace hmem : (x, msg) ∈ ([] : List (String × OutMsg)) := hmem
          cases hmem
        · rw [hb] at hmem
          replace hmem : (x, msg) ∈ (if bid = "" then []
            else broadcastToBoard s bid
              (OutMsg.cursor_move client.userId p) (some client.id)) := hmem
          by_cases hb0 : bid = ""
          · rw [if_pos hb0] at hmem
            cases hmem
          rw [if_neg hb0] at hmem
          unfold broadcastToBoard at hmem
          rcases hg : mapGet s.boardClients bid with _ | ms
          · rw [hg] at hmem
            replace hmem : (x, msg) ∈ ([] : List (String × OutMsg)) := hmem
            cases hmem
          · rw [hg] at hmem
            replace hmem : (x, msg) ∈ broadcastToList s.clients ms
              (OutMsg.cursor_move client.userId p) (some client.id) := hmem
            rw [mem_broadcastToList] at hmem
            rw [hmem.1] at hmsg
            replace hmsg : some client.userId = some u := hmsg
            injection hmsg with hmsg
            rw [← hmsg, husr]
      | unknown ty p =>
        replace hmem : (x, msg) ∈ ([] : List (String × OutMsg)) := hmem
        cases hmem
  | close cid =>
    replace hmem : (x, msg) ∈ (match findClient s.clients cid with
      | some client => handleDisconnect s client
      | none => (s, [])).2 := hmem
    rcases hfc : findClient s.clients cid with _ | client
    · rw [hfc] at hmem
      replace hmem : (x, msg) ∈ ([] : List (String × OutMsg)) := hmem
      cases hmem
    · rw [hfc] at hmem
      obtain ⟨hcmem, -⟩ := findClient_mem _ _ _ hfc
      have husr : client.userId = none := hWF.usersNone client hcmem
      replace hmem : (x, msg) ∈ (handleDisconnect s client).2 := hmem
      rw [handleDisconnect_snd_eq] at hmem
      rcases List.mem_append.1 hmem with hm | hm
      · rcases (mem_departureMsgs s.clients s.workspaceClients client.workspaceId
          client.id _ x msg).1 hm with ⟨rid, ms, -, -, -, hmsg', -⟩
        rw [hmsg'] at hmsg
        replace hmsg : some client.userId = some u := hmsg
        injection hmsg with hmsg
        rw [← hmsg, husr]
      · rcases (mem_departureMsgs s.clients s.boardClients client.boardId
          client.id _ x msg).1 hm with ⟨rid, ms, -, -, -, hmsg', -⟩
        rw [hmsg'] at hmsg
        replace hmsg : some client.userId = some u := hmsg
        injection hmsg with hmsg
        rw [← hmsg, husr]

/-- Witness for C10 at a concrete reachable state: the registered
connection "a" has no user identity. -/
theorem userId_never_assigned_witness :
    ({ id := "a", readyState := true, userId := none, workspaceId := none,
       boardId := none } : Client).userId = none :=
  (userId_never_assigned (run [InEvent.connect "a"])
    (Reachable.next 0 _ Reachable.init (by decide))).1 _ (by decide)

end TeamFlow